import Mathlib

/-!
# Gardum: player-state bookkeeping, projectiles and hero abilities

A shallow embedding of the gameplay code of `Source/Gardum`.

Conventions of the embedding

* `float` values are exact rationals (`ℚ`), so every comparison is the exact
  one; NaN and infinities are not represented. The `float` difference that
  `OnHealthChanged` converts to `uint32` is rounded to binary32
  (`roundBinary32`); where a claim is stated in exact arithmetic the arithmetic
  is the exact one.
* `uint16` / `uint32` members are naturals reduced `% 2 ^ 16` / `% 2 ^ 32`
  after every arithmetic step, the `int16` member is an integer wrapped into
  `[-2 ^ 15, 2 ^ 15)`.
* Engine objects are addressed by a natural number (the pointer); the player
  states of a match form a `World`, a map from such addresses to the object.
* Pointers that the source dereferences without a test (`Data.GEModData`,
  the result of `GetPlayerStateChecked`, `GetPlayerState`, the damage effect
  spec held by a projectile) are taken to be valid, as the source assumes.
* A multicast delegate `Broadcast` is recorded by appending the broadcast
  value to the `Broadcasts` log of the owning player state; where the bound
  objects matter, a delegate is its invocation list and a broadcast runs it.
* A `float` member that a division can make non-finite (the percent of a
  progress bar) is an `Option ℚ`, `none` standing for an infinity or NaN.
-/

namespace Gardum

/-! ## Machine integers -/

/-- Conversion of an `int` result back to `int16` (two's complement wrap). -/
def wrapInt16 (x : Int) : Int := (x + 2 ^ 15) % 2 ^ 16 - 2 ^ 15

/-- Arithmetic on `uint16` is modulo `2 ^ 16`. -/
def wrapUInt16 (x : Nat) : Nat := x % 2 ^ 16

/-- Arithmetic on `uint32` is modulo `2 ^ 32`. -/
def wrapUInt32 (x : Nat) : Nat := x % 2 ^ 32

/-- Integer part of a `float`: the fractional part is discarded (truncation
toward zero). -/
def truncate (x : ℚ) : Int := if 0 ≤ x then Int.floor x else Int.ceil x

/-- The conversion `static_cast<uint32>(x)` of a `float`: the value is
truncated toward zero. The conversion is only defined by the language when the
truncated value fits `uint32`; outside that range the embedding reduces it
modulo `2 ^ 32`. -/
def castUInt32 (x : ℚ) : Nat := Int.toNat (truncate x % 2 ^ 32)

/-- Rounding of a rational to the nearest integer, a tie going to the even
one. -/
def roundHalfEven (x : ℚ) : Int :=
  let f := Int.floor x
  let r := x - f
  if r < 1 / 2 then f
  else if 1 / 2 < r then f + 1
  else if f % 2 = 0 then f
  else f + 1

/-- The exponent of the spacing of the binary32 values around `x`: 23 below
the exponent of `x`, which is taken at least `-126` (below it the values are
subnormal and evenly spaced by `2 ^ (-149)`). -/
def binary32SpacingExponent (x : ℚ) : Int := max (Int.log 2 |x|) (-126) - 23

/-- The `float` result of an arithmetic operation whose exact result is `x`:
`x` rounded to the nearest binary32 value, ties to even. A result beyond the
largest finite binary32 value is an infinity in the source; the embedding keeps
rounding with the spacing of the exponent of `x` there. -/
def roundBinary32 (x : ℚ) : ℚ :=
  (roundHalfEven (x / (2 : ℚ) ^ binary32SpacingExponent x) : ℚ) *
    (2 : ℚ) ^ binary32SpacingExponent x

/-- The rational `x` is a finite binary32 value, a value a `float` can hold. -/
def IsBinary32 (x : ℚ) : Prop := roundBinary32 x = x ∧ |x| < 2 ^ 128

/-! ## Actors -/

/-- The part of the actor class hierarchy the code casts along:
`AHero : ACharacter : APawn : AActor`. -/
inductive EActorClass where
  | Actor
  | Pawn
  | Character
  | Hero
  deriving DecidableEq

/-- Whether `Cast<APawn>` succeeds on an object of this class. -/
def EActorClass.IsPawn : EActorClass → Bool
  | .Actor => false
  | _ => true

/-- Whether `Cast<AHero>` succeeds on an object of this class. -/
def EActorClass.IsHero : EActorClass → Bool
  | .Hero => true
  | _ => false

/-- An actor as seen by the gameplay code: its address, its dynamic class and
the address of the `AGardumPlayerState` of the pawn (read by
`GetPlayerStateChecked<AGardumPlayerState>()`). -/
structure AActor where
  Id : Nat
  Class : EActorClass
  PlayerState : Nat
  deriving DecidableEq

/-- The cast `Cast<APawn>(Actor)`: null for a null pointer and for an actor
that is not a pawn. -/
def CastPawn : Option AActor → Option AActor
  | none => none
  | some a => if a.Class.IsPawn then some a else none

/-- The cast `Cast<AHero>(Actor)`. -/
def CastHero : Option AActor → Option AActor
  | none => none
  | some a => if a.Class.IsHero then some a else none

/-! ## Player state -/

/-- A value sent on one of the four stat delegates of a player state. -/
inductive EStatBroadcast where
  | Kills (Value : Int)
  | Deaths (Value : Nat)
  | Damage (Value : Nat)
  | Healing (Value : Nat)
  deriving DecidableEq

/-- The replicated members of `AGardumPlayerState` and the log of what its
delegates broadcast. -/
structure AGardumPlayerState where
  Kills : Int
  Deaths : Nat
  Damage : Nat
  Healing : Nat
  Broadcasts : List EStatBroadcast
  deriving DecidableEq

namespace AGardumPlayerState

/-- A freshly constructed player state (`Kills = 0`, ...). -/
def init : AGardumPlayerState :=
  { Kills := 0, Deaths := 0, Damage := 0, Healing := 0, Broadcasts := [] }

def GetKills (s : AGardumPlayerState) : Int := s.Kills

def GetDeaths (s : AGardumPlayerState) : Nat := s.Deaths

def GetDamage (s : AGardumPlayerState) : Nat := s.Damage

def GetHealing (s : AGardumPlayerState) : Nat := s.Healing

/-- `++Kills; KillsChangedDelegate.Broadcast(Kills);` -/
def AddKill (s : AGardumPlayerState) : AGardumPlayerState :=
  let k := wrapInt16 (s.Kills + 1)
  { s with Kills := k, Broadcasts := s.Broadcasts ++ [EStatBroadcast.Kills k] }

/-- `++Deaths; DeathsChangedDelegate.Broadcast(Deaths);` -/
def AddDeath (s : AGardumPlayerState) : AGardumPlayerState :=
  let d := wrapUInt16 (s.Deaths + 1)
  { s with Deaths := d, Broadcasts := s.Broadcasts ++ [EStatBroadcast.Deaths d] }

/-- `Damage += Value; DamageChangedDelegate.Broadcast(Damage);` -/
def AddDamage (s : AGardumPlayerState) (Value : Nat) : AGardumPlayerState :=
  let d := wrapUInt32 (s.Damage + Value)
  { s with Damage := d, Broadcasts := s.Broadcasts ++ [EStatBroadcast.Damage d] }

/-- `Healing += Value; HealingChangedDelegate.Broadcast(Healing);` -/
def AddHealing (s : AGardumPlayerState) (Value : Nat) : AGardumPlayerState :=
  let h := wrapUInt32 (s.Healing + Value)
  { s with Healing := h, Broadcasts := s.Broadcasts ++ [EStatBroadcast.Healing h] }

end AGardumPlayerState

/-- The four stats of a player state, as its getters return them. -/
def AGardumPlayerState.Stats (s : AGardumPlayerState) : Int × Nat × Nat × Nat :=
  (s.GetKills, s.GetDeaths, s.GetDamage, s.GetHealing)

/-- Whether a broadcast went out on the damage or on the healing delegate. -/
def EStatBroadcast.IsAccumulator : EStatBroadcast → Bool
  | .Damage _ => true
  | .Healing _ => true
  | _ => false

/-- The player states of a match, by address. -/
abbrev World := Nat → AGardumPlayerState

/-- The world in which every player state is freshly constructed. -/
def World.init : World := fun _ => AGardumPlayerState.init

/-- The data of an attribute change event: the new and the old value and the
instigator of the effect context, `GEModData->EffectSpec.GetContext().GetInstigator()`. -/
structure FOnAttributeChangeData where
  NewValue : ℚ
  OldValue : ℚ
  Instigator : Option AActor
  deriving DecidableEq

namespace AGardumPlayerState

/-- `AGardumPlayerState::CopyProperties`, called on the state at `self` with
the pointer `PlayerState`. -/
def CopyProperties (self : Nat) (PlayerState : Option Nat) (w : World) : World :=
  match PlayerState with
  | none => w
  | some p =>
    let w1 := Function.update w p { w p with Kills := (w self).Kills }
    let w2 := Function.update w1 p { w1 p with Deaths := (w1 self).Deaths }
    let w3 := Function.update w2 p { w2 p with Damage := (w2 self).Damage }
    Function.update w3 p { w3 p with Healing := (w3 self).Healing }

/-- `AGardumPlayerState::OverrideWith`, called on the state at `self` with the
pointer `PlayerState`. -/
def OverrideWith (self : Nat) (PlayerState : Option Nat) (w : World) : World :=
  match PlayerState with
  | none => w
  | some p =>
    let w1 := Function.update w self { w self with Kills := (w p).Kills }
    let w2 := Function.update w1 self { w1 self with Deaths := (w1 p).Deaths }
    let w3 := Function.update w2 self { w2 self with Damage := (w2 p).Damage }
    Function.update w3 self { w3 self with Healing := (w3 p).Healing }

/-- `AGardumPlayerState::OnHealthChanged`, called on the victim's state at
`self`. -/
def OnHealthChanged (self : Nat) (Data : FOnAttributeChangeData) (w : World) : World :=
  let w1 := if Data.NewValue ≤ 0 then Function.update w self (w self).AddDeath else w
  match CastPawn Data.Instigator with
  | none => w1
  | some Instigator =>
    let InstigatorState := Instigator.PlayerState
    let w2 :=
      if Data.NewValue ≤ 0 then
        Function.update w1 InstigatorState (w1 InstigatorState).AddKill
      else w1
    let Difference := roundBinary32 (Data.NewValue - Data.OldValue)
    if Difference < 0 then
      Function.update w2 InstigatorState
        ((w2 InstigatorState).AddDamage (castUInt32 (-Difference)))
    else
      Function.update w2 InstigatorState
        ((w2 InstigatorState).AddHealing (castUInt32 Difference))

end AGardumPlayerState

/-- The instigator's state as `OnHealthChanged` holds it just before the
damage / healing update: the victim's death and the instigator's kill are
already recorded. -/
def AGardumPlayerState.beforeAccumulate (self : Nat) (Data : FOnAttributeChangeData)
    (w : World) (st : Nat) : AGardumPlayerState :=
  let w1 := if Data.NewValue ≤ 0 then Function.update w self (w self).AddDeath else w
  if Data.NewValue ≤ 0 then (w1 st).AddKill else w1 st

/-! ## Heroes -/

/-- The engine's `ENetMode`, in declaration order. -/
inductive ENetMode where
  | NM_Standalone
  | NM_DedicatedServer
  | NM_ListenServer
  | NM_Client
  | NM_MAX
  deriving DecidableEq

/-- The numeric value of an `ENetMode` enumerator. -/
def ENetMode.toNat : ENetMode → Nat
  | .NM_Standalone => 0
  | .NM_DedicatedServer => 1
  | .NM_ListenServer => 2
  | .NM_Client => 3
  | .NM_MAX => 4

/-- The engine's `ENetRole`. -/
inductive ENetRole where
  | ROLE_None
  | ROLE_SimulatedProxy
  | ROLE_AutonomousProxy
  | ROLE_Authority
  | ROLE_MAX
  deriving DecidableEq

/-- The state of an `AHero` that its callbacks read and write: the address of
its player state, its net mode and local role, the count of the loose tag
`Tags::Dead`, collision, ragdoll physics and input flags, and the yaw and
pitch input handed to the controller so far. -/
structure AHero where
  PlayerState : Nat
  NetMode : ENetMode
  LocalRole : ENetRole
  DeadTagCount : Nat
  CollisionEnabled : Bool
  SimulatePhysics : Bool
  InputEnabled : Bool
  YawInput : ℚ
  PitchInput : ℚ

namespace AHero

/-- Base turn rate, in deg/sec. -/
def BaseTurnRate : ℚ := 45

/-- Base look up/down rate, in deg/sec. -/
def BaseLookUpRate : ℚ := 45

/-- `AActor::HasAuthority`. -/
def HasAuthority (h : AHero) : Bool := decide (h.LocalRole = ENetRole.ROLE_Authority)

/-- `APawn::AddControllerYawInput(Val)`: the value is added to the yaw input. -/
def AddControllerYawInput (h : AHero) (Val : ℚ) : AHero :=
  { h with YawInput := h.YawInput + Val }

/-- `APawn::AddControllerPitchInput(Val)`: the value is added to the pitch
input. -/
def AddControllerPitchInput (h : AHero) (Val : ℚ) : AHero :=
  { h with PitchInput := h.PitchInput + Val }

/-- `AHero::TurnAtRate`; `DeltaSeconds` is `GetWorld()->GetDeltaSeconds()`. -/
def TurnAtRate (h : AHero) (DeltaSeconds : ℚ) (Rate : ℚ) : AHero :=
  h.AddControllerYawInput (Rate * BaseTurnRate * DeltaSeconds)

/-- `AHero::LookUpAtRate`; `DeltaSeconds` is `GetWorld()->GetDeltaSeconds()`. -/
def LookUpAtRate (h : AHero) (DeltaSeconds : ℚ) (Rate : ℚ) : AHero :=
  h.AddControllerPitchInput (Rate * BaseLookUpRate * DeltaSeconds)

/-- The input axis held at `Rate` over consecutive frames whose frame times
are `Frames`: `TurnAtRate` is called once per frame. -/
def TurnFrames (h : AHero) (Rate : ℚ) (Frames : List ℚ) : AHero :=
  Frames.foldl (fun a dt => a.TurnAtRate dt Rate) h

/-- The look-up axis held at `Rate` over consecutive frames. -/
def LookUpFrames (h : AHero) (Rate : ℚ) (Frames : List ℚ) : AHero :=
  Frames.foldl (fun a dt => a.LookUpAtRate dt Rate) h

end AHero

/-- What one call of `AHero::OnHealthChanged` leaves behind: the hero, the
player states, and the calls it made to `AGardumPlayerState::OnHealthChanged`
(receiver and argument), in order. -/
structure FHeroHealthChange where
  Hero : AHero
  States : World
  Forwarded : List (Nat × FOnAttributeChangeData)

/-- `AHero::OnHealthChanged`. -/
def AHero.OnHealthChanged (h : AHero) (Data : FOnAttributeChangeData) (w : World) :
    FHeroHealthChange :=
  let h1 :=
    if Data.NewValue ≤ 0 then
      let a := { h with DeadTagCount := h.DeadTagCount + 1,
                        CollisionEnabled := false,
                        SimulatePhysics := true }
      if a.HasAuthority then { a with InputEnabled := false } else a
    else h
  if h1.NetMode.toNat ≤ ENetMode.NM_ListenServer.toNat then
    { Hero := h1,
      States := AGardumPlayerState.OnHealthChanged h1.PlayerState Data w,
      Forwarded := [(h1.PlayerState, Data)] }
  else
    { Hero := h1, States := w, Forwarded := [] }

/-! ## Projectiles -/

/-- A handle to a gameplay effect spec: the address of the shared spec. -/
structure FGameplayEffectSpecHandle where
  Data : Nat
  deriving DecidableEq

/-- The state of an `AProjectile`: the address of its instigator (null when it
has none), its local role, the stored damage effect spec, and whether
`Destroy()` was called on it. -/
structure AProjectile where
  Instigator : Option Nat
  LocalRole : ENetRole
  DamageEffectSpecHandle : FGameplayEffectSpecHandle
  Destroyed : Bool
  deriving DecidableEq

/-- What one overlap callback leaves behind: the projectile and the calls of
`ApplyGameplayEffectSpecToSelf` it made (address of the target actor and the
spec applied), in order. -/
structure FProjectileOverlap where
  Projectile : AProjectile
  Applied : List (Nat × FGameplayEffectSpecHandle)
  deriving DecidableEq

/-- `AProjectile::OnProjectileBeginOverlap`. -/
def AProjectile.OnProjectileBeginOverlap (p : AProjectile)
    (_OverlappedActor OtherActor : Option AActor) : FProjectileOverlap :=
  if p.Instigator = OtherActor.map AActor.Id then
    { Projectile := p, Applied := [] }
  else
    let Applied :=
      if p.LocalRole = ENetRole.ROLE_Authority then
        match CastHero OtherActor with
        | some HitHero => [(HitHero.Id, p.DamageEffectSpecHandle)]
        | none => []
      else []
    { Projectile := { p with Destroyed := true }, Applied := Applied }

/-! ## Engine vector math

`FRotator` and `FVector` over an exact ordered field `α` of scalars. Angles of
a rotator are in degrees. -/

/-- The engine's `FVector`. -/
structure FVector (α : Type) where
  X : α
  Y : α
  Z : α

/-- The engine's `FRotator` (degrees). -/
structure FRotator (α : Type) where
  Pitch : α
  Yaw : α
  Roll : α

/-- The transcendental part of the engine's `FMath`: sine and cosine of an
angle in radians, and the constant `PI`. -/
structure FMath (α : Type) where
  Sin : α → α
  Cos : α → α
  PI : α

section VectorMath

variable {α : Type} [LinearOrderedField α] [FloorRing α]

/-- `FMath::Fmod(X, Y)`: the remainder of `X / Y` with the quotient truncated
toward zero. -/
def FMath.Fmod (X Y : α) : α :=
  X - Y * (if 0 ≤ X / Y then ((Int.floor (X / Y) : Int) : α) else ((Int.ceil (X / Y) : Int) : α))

/-- `FMath::DegreesToRadians`. -/
def FMath.DegreesToRadians (M : FMath α) (Deg : α) : α := Deg * (M.PI / 180)

/-- `FRotator::ClampAxis`: the angle brought into `[0, 360)`. -/
def FRotator.ClampAxis (Angle : α) : α :=
  let a := FMath.Fmod Angle 360
  if a < 0 then a + 360 else a

/-- `FRotator::NormalizeAxis`: the angle brought into `(-180, 180]`. -/
def FRotator.NormalizeAxis (Angle : α) : α :=
  let a := FRotator.ClampAxis Angle
  if a > 180 then a - 360 else a

/-- `FRotator::GetNormalized`. -/
def FRotator.GetNormalized (r : FRotator α) : FRotator α :=
  { Pitch := FRotator.NormalizeAxis r.Pitch,
    Yaw := FRotator.NormalizeAxis r.Yaw,
    Roll := FRotator.NormalizeAxis r.Roll }

/-- `FRotator::Vector`: the unit direction the rotator faces,
`(CP * CY, CP * SY, SP)`. -/
def FRotator.Vector (M : FMath α) (r : FRotator α) : FVector α :=
  let PitchNoWinding := FMath.Fmod r.Pitch 360
  let YawNoWinding := FMath.Fmod r.Yaw 360
  let CP := M.Cos (M.DegreesToRadians PitchNoWinding)
  let SP := M.Sin (M.DegreesToRadians PitchNoWinding)
  let CY := M.Cos (M.DegreesToRadians YawNoWinding)
  let SY := M.Sin (M.DegreesToRadians YawNoWinding)
  { X := CP * CY, Y := CP * SY, Z := SP }

/-- `FVector::operator*(float)`. -/
def FVector.Scale (v : FVector α) (k : α) : FVector α :=
  { X := v.X * k, Y := v.Y * k, Z := v.Z * k }

/-- `FVector::operator+`. -/
def FVector.Add (u v : FVector α) : FVector α :=
  { X := u.X + v.X, Y := u.Y + v.Y, Z := u.Z + v.Z }

/-! ## Abilities -/

/-- The avatar actor of an ability: its dynamic class, its world location and
rotation, and the rotation returned by `GetBaseAimRotation()`. -/
structure AAvatar (α : Type) where
  Class : EActorClass
  Location : FVector α
  Rotation : FRotator α
  BaseAimRotation : FRotator α

/-- `AActor::SetActorRotation`. -/
def AAvatar.SetActorRotation (a : AAvatar α) (NewRotation : FRotator α) : AAvatar α :=
  { a with Rotation := NewRotation }

/-- `AActor::AddActorWorldOffset` (no sweep): the offset is added to the
location. -/
def AAvatar.AddActorWorldOffset (a : AAvatar α) (DeltaLocation : FVector α) : AAvatar α :=
  { a with Location := a.Location.Add DeltaLocation }

/-- What one call of `ActivateAbility` leaves behind: the avatar actor, the
number of calls of `CommitAbility`, and the calls of `EndAbility` in order,
each with its arguments `bReplicateEndAbility` and `bWasCancelled`. -/
structure FActivation (α : Type) where
  Avatar : Option (AAvatar α)
  CommitAbilityCalls : Nat
  EndAbilityCalls : List (Bool × Bool)

/-- `UBlink::ActivateAbility`. `HasAuthorityOrPredictionKey` and
`CommitAbility` are the results of the two engine calls, `Avatar` is
`GetAvatarActorFromActorInfo()`. -/
def UBlink.ActivateAbility (M : FMath α) (BlinkDistance : α)
    (HasAuthorityOrPredictionKey CommitAbility : Bool) (Avatar : Option (AAvatar α)) :
    FActivation α :=
  if !HasAuthorityOrPredictionKey then
    { Avatar := Avatar, CommitAbilityCalls := 0, EndAbilityCalls := [] }
  else if !CommitAbility then
    { Avatar := Avatar, CommitAbilityCalls := 1, EndAbilityCalls := [(true, true)] }
  else
    match Avatar with
    | none => { Avatar := Avatar, CommitAbilityCalls := 1, EndAbilityCalls := [] }
    | some AvatarActor =>
      if !AvatarActor.Class.IsPawn then
        { Avatar := Avatar, CommitAbilityCalls := 1, EndAbilityCalls := [] }
      else
        let Rotation : FRotator α :=
          { Pitch := 0, Yaw := AvatarActor.BaseAimRotation.Yaw, Roll := 0 }
        let a1 := AvatarActor.SetActorRotation Rotation
        let a2 := a1.AddActorWorldOffset
          ((Rotation.GetNormalized.Vector M).Scale BlinkDistance)
        { Avatar := some a2, CommitAbilityCalls := 1, EndAbilityCalls := [(true, false)] }

end VectorMath

/-! ## Scoreboard -/

/-- The engine's `FText`, as far as the widgets build it: the empty text,
`FText::FromString` and `FText::AsNumber`. -/
inductive FText where
  | Empty
  | FromString (Value : String)
  | AsNumber (Value : Int)
  deriving DecidableEq

/-- The five text blocks of a scoreboard entry. -/
inductive ETextSlot where
  | PlayerText
  | KillsText
  | DeathsText
  | DamageText
  | HealingText
  deriving DecidableEq

/-- A pointer to a `UTextBlock` of a scoreboard entry: the address of the entry
and the member it is. A weak lambda of `NativeOnListItemObjectSet` is bound to
such a text block and sets the text of that same block. -/
structure FTextBlockRef where
  Entry : Nat
  Slot : ETextSlot
  deriving DecidableEq

/-- An object handed to a list entry: its address and whether it is an
`AGardumPlayerState`. -/
structure UObject where
  Id : Nat
  IsGardumPlayerState : Bool
  deriving DecidableEq

/-- The cast `Cast<AGardumPlayerState>(Object)`: the address of the player
state, null for another object. -/
def CastGardumPlayerState (o : UObject) : Option Nat :=
  if o.IsGardumPlayerState then some o.Id else none

/-- The members of `UScoreboardEntry`: the texts of its five text blocks and
the player state it points at. -/
structure UScoreboardEntry where
  PlayerText : FText
  KillsText : FText
  DeathsText : FText
  DamageText : FText
  HealingText : FText
  PlayerState : Option Nat
  deriving DecidableEq

/-- The text of the text block `s` of an entry. -/
def UScoreboardEntry.Text (e : UScoreboardEntry) : ETextSlot → FText
  | .PlayerText => e.PlayerText
  | .KillsText => e.KillsText
  | .DeathsText => e.DeathsText
  | .DamageText => e.DamageText
  | .HealingText => e.HealingText

/-- `UTextBlock::SetText` on the text block `s` of an entry. -/
def UScoreboardEntry.SetText (e : UScoreboardEntry) (s : ETextSlot) (t : FText) :
    UScoreboardEntry :=
  match s with
  | .PlayerText => { e with PlayerText := t }
  | .KillsText => { e with KillsText := t }
  | .DeathsText => { e with DeathsText := t }
  | .DamageText => { e with DamageText := t }
  | .HealingText => { e with HealingText := t }

/-- The player states of a match together with the scoreboard entries that
watch them: the player states, their names (`GetPlayerName`), the entries by
address, and the invocation list of each of the four stat delegates of each
player state (the text blocks bound to it, in binding order). -/
structure FScoreboardWorld where
  States : World
  PlayerNames : Nat → String
  Entries : Nat → UScoreboardEntry
  OnKill : Nat → List FTextBlockRef
  OnDeath : Nat → List FTextBlockRef
  OnDamage : Nat → List FTextBlockRef
  OnHealing : Nat → List FTextBlockRef

namespace FScoreboardWorld

/-- `UTextBlock::SetText` through a pointer to the text block. -/
def SetText (w : FScoreboardWorld) (r : FTextBlockRef) (t : FText) : FScoreboardWorld :=
  { w with Entries := Function.update w.Entries r.Entry ((w.Entries r.Entry).SetText r.Slot t) }

/-- `Delegate.Broadcast(Value)`: every bound lambda runs in order and sets its
text block to `FText::AsNumber(Value)`. -/
def Broadcast (w : FScoreboardWorld) (Bound : List FTextBlockRef) (Value : Int) :
    FScoreboardWorld :=
  Bound.foldl (fun a r => a.SetText r (FText.AsNumber Value)) w

/-- `Delegate.RemoveAll(UserObject)`: every binding to the object is removed. -/
def RemoveAll (Bound : List FTextBlockRef) (UserObject : FTextBlockRef) : List FTextBlockRef :=
  Bound.filter (fun r => decide (r ≠ UserObject))

/-- `AGardumPlayerState::AddKill` on the state at `p`, its broadcast delivered. -/
def AddKill (w : FScoreboardWorld) (p : Nat) : FScoreboardWorld :=
  let w1 := { w with States := Function.update w.States p (w.States p).AddKill }
  w1.Broadcast (w1.OnKill p) (w1.States p).Kills

/-- `AGardumPlayerState::AddDeath` on the state at `p`, its broadcast delivered. -/
def AddDeath (w : FScoreboardWorld) (p : Nat) : FScoreboardWorld :=
  let w1 := { w with States := Function.update w.States p (w.States p).AddDeath }
  w1.Broadcast (w1.OnDeath p) (w1.States p).Deaths

/-- `AGardumPlayerState::AddDamage` on the state at `p`, its broadcast
delivered. -/
def AddDamage (w : FScoreboardWorld) (p : Nat) (Value : Nat) : FScoreboardWorld :=
  let w1 := { w with States := Function.update w.States p ((w.States p).AddDamage Value) }
  w1.Broadcast (w1.OnDamage p) (w1.States p).Damage

/-- `AGardumPlayerState::AddHealing` on the state at `p`, its broadcast
delivered. -/
def AddHealing (w : FScoreboardWorld) (p : Nat) (Value : Nat) : FScoreboardWorld :=
  let w1 := { w with States := Function.update w.States p ((w.States p).AddHealing Value) }
  w1.Broadcast (w1.OnHealing p) (w1.States p).Healing

end FScoreboardWorld

/-- One of the four stat updates of a player state. -/
inductive EStatUpdate where
  | AddKill
  | AddDeath
  | AddDamage (Value : Nat)
  | AddHealing (Value : Nat)
  deriving DecidableEq

/-- One stat update applied to the player state at `p`. -/
def FScoreboardWorld.Update (w : FScoreboardWorld) (p : Nat) : EStatUpdate → FScoreboardWorld
  | .AddKill => w.AddKill p
  | .AddDeath => w.AddDeath p
  | .AddDamage Value => w.AddDamage p Value
  | .AddHealing Value => w.AddHealing p Value

/-- A sequence of stat updates applied to the player state at `p`, in order. -/
def FScoreboardWorld.Updates (w : FScoreboardWorld) (p : Nat) (ops : List EStatUpdate) :
    FScoreboardWorld :=
  ops.foldl (fun a op => a.Update p op) w

/-- `UScoreboardEntry::NativeOnListItemObjectSet`, called on the entry at
`self`. -/
def UScoreboardEntry.NativeOnListItemObjectSet (self : Nat) (ListItemObject : Option UObject)
    (w : FScoreboardWorld) : FScoreboardWorld :=
  match ListItemObject with
  | none => w
  | some Object =>
    -- Unbind old delegates
    let w1 :=
      match (w.Entries self).PlayerState with
      | none => w
      | some Old =>
        { w with
          OnKill := Function.update w.OnKill Old
            (FScoreboardWorld.RemoveAll (w.OnKill Old) ⟨self, ETextSlot.KillsText⟩),
          OnDeath := Function.update w.OnDeath Old
            (FScoreboardWorld.RemoveAll (w.OnDeath Old) ⟨self, ETextSlot.DeathsText⟩),
          OnDamage := Function.update w.OnDamage Old
            (FScoreboardWorld.RemoveAll (w.OnDamage Old) ⟨self, ETextSlot.DamageText⟩),
          OnHealing := Function.update w.OnHealing Old
            (FScoreboardWorld.RemoveAll (w.OnHealing Old) ⟨self, ETextSlot.HealingText⟩) }
    let w2 := { w1 with
      Entries := Function.update w1.Entries self
        { w1.Entries self with PlayerState := CastGardumPlayerState Object } }
    match CastGardumPlayerState Object with
    | none => w2
    | some P =>
      let w3 := w2.SetText ⟨self, ETextSlot.PlayerText⟩ (FText.FromString (w2.PlayerNames P))
      let w4 := w3.SetText ⟨self, ETextSlot.KillsText⟩ (FText.AsNumber (w3.States P).GetKills)
      let w5 := w4.SetText ⟨self, ETextSlot.DeathsText⟩ (FText.AsNumber (w4.States P).GetDeaths)
      let w6 := w5.SetText ⟨self, ETextSlot.DamageText⟩ (FText.AsNumber (w5.States P).GetDamage)
      let w7 := w6.SetText ⟨self, ETextSlot.HealingText⟩
        (FText.AsNumber (w6.States P).GetHealing)
      { w7 with
        OnKill := Function.update w7.OnKill P (w7.OnKill P ++ [⟨self, ETextSlot.KillsText⟩]),
        OnDeath := Function.update w7.OnDeath P (w7.OnDeath P ++ [⟨self, ETextSlot.DeathsText⟩]),
        OnDamage := Function.update w7.OnDamage P
          (w7.OnDamage P ++ [⟨self, ETextSlot.DamageText⟩]),
        OnHealing := Function.update w7.OnHealing P
          (w7.OnHealing P ++ [⟨self, ETextSlot.HealingText⟩]) }

/-- The invariant of the delegate lists: a text block bound to a stat delegate
is the block of the matching kind (a `KillsText` on `OnKill`, ...), which is how
`NativeOnListItemObjectSet`, the only code that binds, binds them. -/
def FScoreboardWorld.WellBound (w : FScoreboardWorld) : Prop :=
  (∀ p r, r ∈ w.OnKill p → r.Slot = ETextSlot.KillsText) ∧
  (∀ p r, r ∈ w.OnDeath p → r.Slot = ETextSlot.DeathsText) ∧
  (∀ p r, r ∈ w.OnDamage p → r.Slot = ETextSlot.DamageText) ∧
  (∀ p r, r ∈ w.OnHealing p → r.Slot = ETextSlot.HealingText)

/-- A scoreboard world before any entry was bound: no delegate has a binding
and no entry points at a player state. -/
def FScoreboardWorld.init (Names : Nat → String) : FScoreboardWorld :=
  { States := World.init,
    PlayerNames := Names,
    Entries := fun _ =>
      { PlayerText := FText.Empty, KillsText := FText.Empty, DeathsText := FText.Empty,
        DamageText := FText.Empty, HealingText := FText.Empty, PlayerState := none },
    OnKill := fun _ => [],
    OnDeath := fun _ => [],
    OnDamage := fun _ => [],
    OnHealing := fun _ => [] }

/-- The entry at `e` shows the stats of the player state at `p` and is bound
to its four delegates, in a well-bound world. -/
def FScoreboardWorld.Tracks (w : FScoreboardWorld) (e p : Nat) : Prop :=
  w.WellBound ∧
  ((⟨e, ETextSlot.KillsText⟩ : FTextBlockRef) ∈ w.OnKill p ∧
    (⟨e, ETextSlot.DeathsText⟩ : FTextBlockRef) ∈ w.OnDeath p ∧
    (⟨e, ETextSlot.DamageText⟩ : FTextBlockRef) ∈ w.OnDamage p ∧
    (⟨e, ETextSlot.HealingText⟩ : FTextBlockRef) ∈ w.OnHealing p) ∧
  ((w.Entries e).KillsText = FText.AsNumber (w.States p).GetKills ∧
    (w.Entries e).DeathsText = FText.AsNumber (w.States p).GetDeaths ∧
    (w.Entries e).DamageText = FText.AsNumber (w.States p).GetDamage ∧
    (w.Entries e).HealingText = FText.AsNumber (w.States p).GetHealing)

/-- No text block of the entry at `e` is bound to a delegate of the player
state at `p`. -/
def FScoreboardWorld.Unbound (w : FScoreboardWorld) (e p : Nat) : Prop :=
  (∀ r, r ∈ w.OnKill p → r.Entry ≠ e) ∧ (∀ r, r ∈ w.OnDeath p → r.Entry ≠ e) ∧
  (∀ r, r ∈ w.OnDamage p → r.Entry ≠ e) ∧ (∀ r, r ∈ w.OnHealing p → r.Entry ≠ e)

/-- The scoreboard worlds the code can produce: from a world without bindings,
by `NativeOnListItemObjectSet` on any entry with any object and by stat updates
of any player state. -/
inductive FScoreboardWorld.Reachable : FScoreboardWorld → Prop where
  | start (w : FScoreboardWorld) (hK : ∀ p, w.OnKill p = []) (hD : ∀ p, w.OnDeath p = [])
      (hDm : ∀ p, w.OnDamage p = []) (hH : ∀ p, w.OnHealing p = []) : Reachable w
  | bind (w : FScoreboardWorld) (e : Nat) (o : Option UObject) :
      Reachable w → Reachable (UScoreboardEntry.NativeOnListItemObjectSet e o w)
  | update (w : FScoreboardWorld) (p : Nat) (op : EStatUpdate) :
      Reachable w → Reachable (w.Update p op)

/-! ## Ability systems and the attribute bar -/

/-- Division of `float`s with a finite result: `none` stands for a result that
is not a finite number (a division by zero gives an infinity or NaN). -/
def FloatDiv (x y : ℚ) : Option ℚ := if y = 0 then none else some (x / y)

/-- An object bound to an attribute value change delegate with `AddUObject`:
an attribute bar (bound with `UAttributeBar::OnAttributeChanged`) or a hero
(bound with `AHero::OnHealthChanged`), by address. -/
inductive EAttributeListener where
  | AttributeBar (Bar : Nat)
  | Hero (Hero : Nat)
  deriving DecidableEq

/-- The engine's `FGameplayAbilitySpec`, as `FGameplayAbilitySpec(Ability,
Level, InputID)` builds it: the ability class, the level and the input ID. -/
structure FGameplayAbilitySpec where
  Ability : Nat
  Level : Nat
  InputID : Int
  deriving DecidableEq

/-- The state of a `UAbilitySystemComponent` the code reads and writes: the
activatable abilities in the order they were given, the actor info, the current
and the base value of each attribute (`GetNumericAttribute`,
`GetNumericAttributeBase`), and the invocation list of the value change delegate
of each attribute. An attribute (`FGameplayAttribute`) is a natural number. -/
structure UAbilitySystemComponent where
  ActivatableAbilities : List FGameplayAbilitySpec
  AbilityActorInfo : Option Nat
  NumericAttribute : Nat → ℚ
  NumericAttributeBase : Nat → ℚ
  AttributeValueChangeDelegate : Nat → List EAttributeListener

/-- `UGardumAttributeSet::GetHealthAttribute()`. -/
def UGardumAttributeSet.GetHealthAttribute : Nat := 0

/-- `Delegate.RemoveAll(UserObject)` on an attribute value change delegate. -/
def UAbilitySystemComponent.RemoveAll (s : UAbilitySystemComponent) (Attribute : Nat)
    (UserObject : EAttributeListener) : UAbilitySystemComponent :=
  { s with
    AttributeValueChangeDelegate :=
      Function.update s.AttributeValueChangeDelegate Attribute
        ((s.AttributeValueChangeDelegate Attribute).filter (fun l => decide (l ≠ UserObject))) }

/-- `Delegate.AddUObject(UserObject, ...)` on an attribute value change
delegate. -/
def UAbilitySystemComponent.AddUObject (s : UAbilitySystemComponent) (Attribute : Nat)
    (UserObject : EAttributeListener) : UAbilitySystemComponent :=
  { s with
    AttributeValueChangeDelegate :=
      Function.update s.AttributeValueChangeDelegate Attribute
        (s.AttributeValueChangeDelegate Attribute ++ [UserObject]) }

/-- The members of `UAttributeBar`: the ability system it is connected to and
the `Percent` of the progress bar (`none` when it is not a finite number). -/
structure UAttributeBar where
  AbilitySystem : Option Nat
  Percent : Option ℚ
  deriving DecidableEq

/-- `UProgressBar::SetPercent`. -/
def UAttributeBar.SetPercent (b : UAttributeBar) (InPercent : Option ℚ) : UAttributeBar :=
  { b with Percent := InPercent }

/-- The ability systems and the attribute bars of a HUD, by address. -/
structure FHUDWorld where
  Systems : Nat → UAbilitySystemComponent
  Bars : Nat → UAttributeBar

/-- `UAttributeBar::SetAttribute`, called on the bar at `self`. -/
def UAttributeBar.SetAttribute (self : Nat) (NewAbilitySystem : Option Nat) (Attribute : Nat)
    (w : FHUDWorld) : FHUDWorld :=
  -- Cleanup previous connection
  let w1 :=
    match (w.Bars self).AbilitySystem with
    | none => w
    | some Old =>
      { w with
        Systems := Function.update w.Systems Old
          ((w.Systems Old).RemoveAll Attribute (EAttributeListener.AttributeBar self)) }
  let w2 := { w1 with
    Bars := Function.update w1.Bars self { w1.Bars self with AbilitySystem := NewAbilitySystem } }
  match NewAbilitySystem with
  | none => w2
  | some S =>
    let w3 := { w2 with
      Bars := Function.update w2.Bars self
        ((w2.Bars self).SetPercent
          (FloatDiv ((w2.Systems S).NumericAttribute Attribute)
            ((w2.Systems S).NumericAttributeBase Attribute))) }
    { w3 with
      Systems := Function.update w3.Systems S
        ((w3.Systems S).AddUObject Attribute (EAttributeListener.AttributeBar self)) }

/-- `UAttributeBar::OnAttributeChanged`. A `Percent` that is not a finite
number stays so when multiplied and divided by the values of the event. -/
def UAttributeBar.OnAttributeChanged (b : UAttributeBar) (Data : FOnAttributeChangeData) :
    UAttributeBar :=
  if Data.NewValue < 0 then
    b.SetPercent (some 0)
  else
    b.SetPercent
      (match b.Percent with
        | none => none
        | some Percent => FloatDiv (Percent * Data.NewValue) Data.OldValue)

/-- A chained sequence of change events delivered to the bar: the attribute
goes from `Current` through the values of the list, and the `OldValue` of each
event is the value before it. -/
def UAttributeBar.OnAttributeChanges (b : UAttributeBar) (Current : ℚ) :
    List ℚ → UAttributeBar
  | [] => b
  | NewValue :: rest =>
    (b.OnAttributeChanged
      { NewValue := NewValue, OldValue := Current, Instigator := none }).OnAttributeChanges
      NewValue rest

/-- An ability system that was given no ability and has no listener, with
every attribute at `Value` of a base value `Base`. -/
def UAbilitySystemComponent.init (Value Base : ℚ) : UAbilitySystemComponent :=
  { ActivatableAbilities := [],
    AbilityActorInfo := none,
    NumericAttribute := fun _ => Value,
    NumericAttributeBase := fun _ => Base,
    AttributeValueChangeDelegate := fun _ => [] }

/-- A HUD world of fresh ability systems and unconnected bars. -/
def FHUDWorld.init (Value Base : ℚ) : FHUDWorld :=
  { Systems := fun _ => UAbilitySystemComponent.init Value Base,
    Bars := fun _ => { AbilitySystem := none, Percent := some 0 } }

/-! ## Ability icons and the HUD widget -/

/-- Conversion of an `int` result to 32 bits (two's complement wrap). -/
def wrapInt32 (x : Int) : Int := (x + 2 ^ 31) % 2 ^ 32 - 2 ^ 31

/-- The conversion `static_cast<int>(x)` of a `float`: the value is truncated
toward zero. The conversion is only defined by the language when the truncated
value fits `int`; outside that range the embedding wraps it to 32 bits. -/
def castInt32 (x : ℚ) : Int := wrapInt32 (truncate x)

/-- `FMath::RoundFromZero`: `floor` of a negative value, `ceil` of any other. -/
def FMath.RoundFromZero (F : ℚ) : ℚ :=
  if F < 0 then ((Int.floor F : Int) : ℚ) else ((Int.ceil F : Int) : ℚ)

/-- The cooldown text of an ability icon, a `UNumberTextBlock`, as the last
call made on it: `SetNumber(Number)` or `SetText(Text)`. -/
inductive UNumberTextBlock where
  | SetNumber (Number : Int)
  | SetText (Text : FText)
  deriving DecidableEq

/-- The members of `UAbilityIcon`: the texture of the icon brush, the percent
of the cooldown bar (`none` when it is not a finite number), the cooldown text,
the ability spec it displays and the actor info. -/
structure UAbilityIcon where
  Icon : Option Nat
  Cooldown : Option ℚ
  CooldownText : UNumberTextBlock
  AbilitySpec : Option FGameplayAbilitySpec
  ActorInfo : Option Nat
  deriving DecidableEq

/-- `UAbilityIcon::NativeTick`. `TimeRemaining` and `CooldownDuration` are the
values `GetCooldownTimeRemainingAndDuration` returns for the ability. -/
def UAbilityIcon.NativeTick (icon : UAbilityIcon) (TimeRemaining CooldownDuration : ℚ) :
    UAbilityIcon :=
  match icon.AbilitySpec with
  | none => icon
  | some _ =>
    let i1 := { icon with
      Cooldown :=
        if CooldownDuration = 0 then some 0 else FloatDiv TimeRemaining CooldownDuration }
    let RoundedTime := castInt32 (FMath.RoundFromZero TimeRemaining)
    if RoundedTime ≠ 0 then
      { i1 with CooldownText := UNumberTextBlock.SetNumber RoundedTime }
    else
      { i1 with CooldownText := UNumberTextBlock.SetText FText.Empty }

/-- `UAbilityIcon::SetAbility`. `GetIcon` gives the icon texture of an ability
class (`UHeroGameplayAbility::GetIcon`), null when it has none. -/
def UAbilityIcon.SetAbility (GetIcon : Nat → Option Nat) (icon : UAbilityIcon)
    (NewAbilitySpec : Option FGameplayAbilitySpec) (NewActorInfo : Option Nat) : UAbilityIcon :=
  let i1 := { icon with ActorInfo := NewActorInfo, AbilitySpec := NewAbilitySpec }
  match NewAbilitySpec with
  | none => i1
  | some Spec =>
    match GetIcon Spec.Ability with
    | some AbilityIcon => { i1 with Icon := some AbilityIcon }
    | none => i1

/-- An icon that displays no ability. -/
def UAbilityIcon.init : UAbilityIcon :=
  { Icon := none, Cooldown := some 0, CooldownText := UNumberTextBlock.SetText FText.Empty,
    AbilitySpec := none, ActorInfo := none }

/-- Modelled from the spec: the declaration of `AbilityAction`
(`Heroes/HeroTypes.h`) is not among the sources. Its enumerators are taken from
the `switch` of `UHUDWidget::GetAbility`, in that order. -/
inductive AbilityAction where
  | MainAttack
  | Ability1
  | Ability2
  | Ability3
  | Ultimate
  deriving DecidableEq

/-- Modelled from the spec: the numeric values of the `AbilityAction`
enumerators, declared in the missing `Heroes/HeroTypes.h`, are 0 to 4 in the
order `MainAttack`, `Ability1`, `Ability2`, `Ability3`, `Ultimate`. -/
def AbilityAction.toInt : AbilityAction → Int
  | .MainAttack => 0
  | .Ability1 => 1
  | .Ability2 => 2
  | .Ability3 => 3
  | .Ultimate => 4

/-- The five icon members of `UHUDWidget`. -/
inductive EHUDIcon where
  | MainAttackIcon
  | Ability1Icon
  | Ability2Icon
  | Ability3Icon
  | UltimateIcon
  deriving DecidableEq

/-- The members of `UHUDWidget`: the address of the health bar and the five
ability icons. -/
structure UHUDWidget where
  HealthBar : Nat
  MainAttackIcon : UAbilityIcon
  Ability1Icon : UAbilityIcon
  Ability2Icon : UAbilityIcon
  Ability3Icon : UAbilityIcon
  UltimateIcon : UAbilityIcon
  deriving DecidableEq

/-- The icon a member pointer of the HUD widget points at. -/
def UHUDWidget.Icon (hud : UHUDWidget) : EHUDIcon → UAbilityIcon
  | .MainAttackIcon => hud.MainAttackIcon
  | .Ability1Icon => hud.Ability1Icon
  | .Ability2Icon => hud.Ability2Icon
  | .Ability3Icon => hud.Ability3Icon
  | .UltimateIcon => hud.UltimateIcon

/-- A write through a member pointer of the HUD widget. -/
def UHUDWidget.SetIcon (hud : UHUDWidget) (i : EHUDIcon) (icon : UAbilityIcon) : UHUDWidget :=
  match i with
  | .MainAttackIcon => { hud with MainAttackIcon := icon }
  | .Ability1Icon => { hud with Ability1Icon := icon }
  | .Ability2Icon => { hud with Ability2Icon := icon }
  | .Ability3Icon => { hud with Ability3Icon := icon }
  | .UltimateIcon => { hud with UltimateIcon := icon }

/-- `UHUDWidget::GetAbility`. `Action` is the numeric value of the argument,
which `static_cast<AbilityAction>(i)` makes from any `int`. The `switch` has no
default and nothing follows it: for a value that is no enumerator the function
flows off its end without a return value, which is `none` here. -/
def UHUDWidget.GetAbility (Action : Int) : Option EHUDIcon :=
  if Action = AbilityAction.MainAttack.toInt then some EHUDIcon.MainAttackIcon
  else if Action = AbilityAction.Ability1.toInt then some EHUDIcon.Ability1Icon
  else if Action = AbilityAction.Ability2.toInt then some EHUDIcon.Ability2Icon
  else if Action = AbilityAction.Ability3.toInt then some EHUDIcon.Ability3Icon
  else if Action = AbilityAction.Ultimate.toInt then some EHUDIcon.UltimateIcon
  else none

/-- The loop of `UHUDWidget::SetAbilitySystem` from index `i` on, over the
abilities from that index on: `none` when `GetAbility` returns no icon. -/
def UHUDWidget.SetAbilities (GetIcon : Nat → Option Nat) (ActorInfo : Option Nat) :
    List FGameplayAbilitySpec → Nat → UHUDWidget → Option UHUDWidget
  | [], _, hud => some hud
  | Spec :: rest, i, hud =>
    match UHUDWidget.GetAbility (i : Int) with
    | none => none
    | some Member =>
      UHUDWidget.SetAbilities GetIcon ActorInfo rest (i + 1)
        (hud.SetIcon Member ((hud.Icon Member).SetAbility GetIcon (some Spec) ActorInfo))

/-- `UHUDWidget::SetAbilitySystem` with the ability system at `AbilitySystem`:
the HUD widget and the world of ability systems and bars after it, `none` when
`GetAbility` returns no icon for an index of the loop. -/
def UHUDWidget.SetAbilitySystem (GetIcon : Nat → Option Nat) (hud : UHUDWidget)
    (AbilitySystem : Nat) (w : FHUDWorld) : Option (UHUDWidget × FHUDWorld) :=
  let w1 := UAttributeBar.SetAttribute hud.HealthBar (some AbilitySystem)
    UGardumAttributeSet.GetHealthAttribute w
  let Abilities := (w1.Systems AbilitySystem).ActivatableAbilities
  match UHUDWidget.SetAbilities GetIcon (w1.Systems AbilitySystem).AbilityActorInfo
      Abilities 0 hud with
  | none => none
  | some hud1 => some (hud1, w1)

/-- A HUD widget whose icons display nothing, with its health bar at address
`HealthBar`. -/
def UHUDWidget.init (HealthBar : Nat) : UHUDWidget :=
  { HealthBar := HealthBar, MainAttackIcon := UAbilityIcon.init,
    Ability1Icon := UAbilityIcon.init, Ability2Icon := UAbilityIcon.init,
    Ability3Icon := UAbilityIcon.init, UltimateIcon := UAbilityIcon.init }

/-! ## Granting abilities -/

/-- `UAbilitySystemComponent::GiveAbility`: the spec is appended to the
activatable abilities. -/
def UAbilitySystemComponent.GiveAbility (s : UAbilitySystemComponent)
    (Spec : FGameplayAbilitySpec) : UAbilitySystemComponent :=
  { s with ActivatableAbilities := s.ActivatableAbilities ++ [Spec] }

/-- `AHero::SetupAbilitySystem` of the hero at address `Hero`, on its ability
system: `InitAbilityActorInfo(this, this)` and the binding of
`AHero::OnHealthChanged` to the health delegate. -/
def AHero.SetupAbilitySystem (Hero : Nat) (s : UAbilitySystemComponent) :
    UAbilitySystemComponent :=
  ({ s with AbilityActorInfo := some Hero }).AddUObject
    UGardumAttributeSet.GetHealthAttribute (EAttributeListener.Hero Hero)

/-- `AHero::PossessedBy` of the hero at address `Hero`, on its ability system.
`DefaultAbilities` lists the entries of the map in its iteration order; a null
ability class fails the `ensure` and is skipped. -/
def AHero.PossessedBy (Hero : Nat) (DefaultAbilities : List (AbilityAction × Option Nat))
    (s : UAbilitySystemComponent) : UAbilitySystemComponent :=
  DefaultAbilities.foldl
    (fun a entry =>
      match entry.2 with
      | some Ability =>
        a.GiveAbility { Ability := Ability, Level := 1, InputID := entry.1.toInt }
      | none => a)
    (AHero.SetupAbilitySystem Hero s)

/-- `AHero::OnRep_PlayerState` of the hero at address `Hero`, on its ability
system. -/
def AHero.OnRep_PlayerState (Hero : Nat) (s : UAbilitySystemComponent) :
    UAbilitySystemComponent :=
  AHero.SetupAbilitySystem Hero s

/-! ## Frost bolt -/

/-- Whether `Cast<ACharacter>` succeeds on an object of this class. -/
def EActorClass.IsCharacter : EActorClass → Bool
  | .Character => true
  | .Hero => true
  | _ => false

/-- What one call of `UFrostBolt::ActivateAbility` leaves behind: the
projectiles it spawned, the number of calls of `CommitAbility`, and the calls of
`EndAbility` in order, each with its arguments `bReplicateEndAbility` and
`bWasCancelled`. -/
structure FFrostBoltActivation where
  Spawned : List AProjectile
  CommitAbilityCalls : Nat
  EndAbilityCalls : List (Bool × Bool)
  deriving DecidableEq

/-- `UFrostBolt::ActivateAbility`. `DamageEffectClass` is the member of that
name (null when not set), `HasAuthorityOrPredictionKey` and `CommitAbility` are
the results of the two engine calls, `Avatar` is `GetAvatarActorFromActorInfo()`.
The projectile is spawned at the muzzle with the character as instigator, and
`MakeOutgoingGameplayEffectSpec(DamageEffectClass)` is stored in it; an actor
spawned locally has the role `ROLE_Authority`. -/
def UFrostBolt.ActivateAbility (DamageEffectClass : Option Nat)
    (HasAuthorityOrPredictionKey CommitAbility : Bool) (Avatar : Option AActor) :
    FFrostBoltActivation :=
  if !HasAuthorityOrPredictionKey then
    { Spawned := [], CommitAbilityCalls := 0, EndAbilityCalls := [] }
  else if !CommitAbility then
    { Spawned := [], CommitAbilityCalls := 1, EndAbilityCalls := [(true, true)] }
  else
    match DamageEffectClass with
    | none => { Spawned := [], CommitAbilityCalls := 1, EndAbilityCalls := [] }
    | some EffectClass =>
      match Avatar with
      | none => { Spawned := [], CommitAbilityCalls := 1, EndAbilityCalls := [] }
      | some AvatarActor =>
        if !AvatarActor.Class.IsCharacter then
          { Spawned := [], CommitAbilityCalls := 1, EndAbilityCalls := [] }
        else
          let Projectile : AProjectile :=
            { Instigator := some AvatarActor.Id,
              LocalRole := ENetRole.ROLE_Authority,
              DamageEffectSpecHandle := { Data := EffectClass },
              Destroyed := false }
          { Spawned := [Projectile], CommitAbilityCalls := 1,
            EndAbilityCalls := [(true, false)] }

/-! ## Health change execution -/

/-- The engine's `EGameplayModOp`. -/
inductive EGameplayModOp where
  | Additive
  | Multiplicitive
  | Division
  | Override
  deriving DecidableEq

/-- The engine's `EGameplayEffectAttributeCaptureSource`. -/
inductive EGameplayEffectAttributeCaptureSource where
  | Source
  | Target
  deriving DecidableEq

/-- The engine's `FGameplayEffectAttributeCaptureDefinition`. -/
structure FGameplayEffectAttributeCaptureDefinition where
  AttributeToCapture : Nat
  AttributeSource : EGameplayEffectAttributeCaptureSource
  bSnapshot : Bool
  deriving DecidableEq

/-- The engine's `FGameplayModifierEvaluatedData`. -/
structure FGameplayModifierEvaluatedData where
  Attribute : Nat
  ModifierOp : EGameplayModOp
  Magnitude : ℚ
  deriving DecidableEq

/-- The capture definition `HealthDef` that
`DEFINE_ATTRIBUTE_CAPTUREDEF(UGardumAttributeSet, Health, Target, false)` builds
in the constructor. -/
def UHealthChangeExecutionCalculation.HealthDef : FGameplayEffectAttributeCaptureDefinition :=
  { AttributeToCapture := UGardumAttributeSet.GetHealthAttribute,
    AttributeSource := EGameplayEffectAttributeCaptureSource.Target,
    bSnapshot := false }

/-- `UHealthChangeExecutionCalculation::Execute_Implementation`.
`AttemptCalculateCapturedAttributeMagnitude` gives the captured magnitude of a
capture definition, `none` when the capture fails (the output argument is then
left as it was); `OutExecutionOutput` is the list of output modifiers. -/
def UHealthChangeExecutionCalculation.Execute_Implementation
    (AttemptCalculateCapturedAttributeMagnitude :
      FGameplayEffectAttributeCaptureDefinition → Option ℚ)
    (OutExecutionOutput : List FGameplayModifierEvaluatedData) :
    List FGameplayModifierEvaluatedData :=
  let NewHealth : ℚ :=
    match AttemptCalculateCapturedAttributeMagnitude
        UHealthChangeExecutionCalculation.HealthDef with
    | some Magnitude => Magnitude
    | none => 0
  OutExecutionOutput ++
    [{ Attribute := UGardumAttributeSet.GetHealthAttribute,
       ModifierOp := EGameplayModOp.Override,
       Magnitude := NewHealth }]

/-! ## Setup calls of a hero and delivery of health changes -/

/-- A call on a hero that runs `AHero::SetupAbilitySystem`: `PossessedBy`
(with the `DefaultAbilities` of the hero) or `OnRep_PlayerState`. -/
inductive EHeroSetupCall where
  | PossessedBy (DefaultAbilities : List (AbilityAction × Option Nat))
  | OnRep_PlayerState

/-- One setup call on the hero at address `Hero`, on its ability system. -/
def AHero.RunSetupCall (Hero : Nat) (s : UAbilitySystemComponent) :
    EHeroSetupCall → UAbilitySystemComponent
  | .PossessedBy DefaultAbilities => AHero.PossessedBy Hero DefaultAbilities s
  | .OnRep_PlayerState => AHero.OnRep_PlayerState Hero s

/-- A sequence of setup calls on the hero at address `Hero`, in order. -/
def AHero.RunSetupCalls (Hero : Nat) (s : UAbilitySystemComponent)
    (Calls : List EHeroSetupCall) : UAbilitySystemComponent :=
  Calls.foldl (AHero.RunSetupCall Hero) s

/-- A broadcast of the Health value change delegate of the ability system `s`
of the hero `h` at address `Hero`: every binding of `AHero::OnHealthChanged` of
that hero in the invocation list runs, in order, and the calls each run
forwards to the player state are collected. -/
def AHero.BroadcastHealthChanged (Hero : Nat) (h : AHero) (s : UAbilitySystemComponent)
    (Data : FOnAttributeChangeData) (w : World) : FHeroHealthChange :=
  (s.AttributeValueChangeDelegate UGardumAttributeSet.GetHealthAttribute).foldl
    (fun acc Listener =>
      if Listener = EAttributeListener.Hero Hero then
        let r := acc.Hero.OnHealthChanged Data acc.States
        { Hero := r.Hero, States := r.States, Forwarded := acc.Forwarded ++ r.Forwarded }
      else acc)
    { Hero := h, States := w, Forwarded := [] }

/-! ## Helper lemmas -/

/-- Writing `f (w k)` at address `k` preserves every observation `g` that `f`
preserves, at every address. -/
theorem World.update_preserves {β : Type} (g : AGardumPlayerState → β)
    (f : AGardumPlayerState → AGardumPlayerState) (hf : ∀ s, g (f s) = g s)
    (w : World) (k p : Nat) : g (Function.update w k (f (w k)) p) = g (w p) := by
  by_cases h : p = k
  · subst h; simp [hf]
  · simp [Function.update_noteq h]

/-- On a value in `[0, 2 ^ 32)` the conversion to `uint32` is the floor. -/
theorem castUInt32_of_nonneg_of_lt (x : ℚ) (h0 : 0 ≤ x) (h1 : x < 2 ^ 32) :
    castUInt32 x = Nat.floor x := by
  have hf0 : (0 : Int) ≤ Int.floor x := Int.floor_nonneg.mpr h0
  have hf1 : Int.floor x < 2 ^ 32 := by
    have : ((Int.floor x : Int) : ℚ) < ((2 ^ 32 : Int) : ℚ) := by
      refine lt_of_le_of_lt (Int.floor_le x) ?_
      push_cast
      exact h1
    exact_mod_cast this
  unfold castUInt32 truncate
  rw [if_pos h0, Int.emod_eq_of_lt hf0 hf1, Int.floor_toNat]

/-- Incrementing an `int16` below its maximum does not wrap. -/
theorem wrapInt16_succ_of_lt (k : Int) (h0 : -2 ^ 15 ≤ k) (h1 : k < 2 ^ 15 - 1) :
    wrapInt16 (k + 1) = k + 1 := by
  unfold wrapInt16
  rw [Int.emod_eq_of_lt (by omega) (by omega)]
  omega

/-! ## Rounding to binary32 -/

/-- A rational within less than a half of an integer rounds to it. -/
theorem roundHalfEven_eq_of_near (q : ℚ) (m : Int) (h : |q - m| < 1 / 2) :
    roundHalfEven q = m := by
  obtain ⟨h1, h2⟩ := abs_lt.mp h
  unfold roundHalfEven
  by_cases hq : (m : ℚ) ≤ q
  · have hf : Int.floor q = m := by
      rw [Int.floor_eq_iff]
      constructor
      · exact hq
      · linarith
    simp only [hf]
    rw [if_pos h2]
  · have hf : Int.floor q = m - 1 := by
      rw [Int.floor_eq_iff]
      push_cast
      constructor
      · linarith
      · linarith
    simp only [hf]
    push_cast
    rw [if_neg (by linarith), if_pos (by linarith)]
    ring

/-- A non-negative rational rounds to a non-negative integer. -/
theorem roundHalfEven_nonneg (q : ℚ) (h : 0 ≤ q) : 0 ≤ roundHalfEven q := by
  have hf : (0 : Int) ≤ Int.floor q := Int.floor_nonneg.mpr h
  unfold roundHalfEven
  simp only
  split_ifs <;> omega

/-- A rational at most `-1` rounds to an integer at most `-1`. -/
theorem roundHalfEven_le_neg_one (q : ℚ) (h : q ≤ -1) : roundHalfEven q ≤ -1 := by
  have hf : Int.floor q ≤ -1 := by
    rw [Int.floor_le_neg_one_iff]
    linarith
  by_cases hf2 : Int.floor q ≤ -2
  · unfold roundHalfEven
    simp only
    split_ifs <;> omega
  · have hf1 : Int.floor q = -1 := by omega
    have hq : q = -1 := by
      apply le_antisymm h
      have := Int.floor_le q
      rw [hf1] at this
      simpa using this
    unfold roundHalfEven
    simp only [hf1, hq]
    norm_num

/-- The exponent of the spacing around a value of exponent `e ≥ -126`. -/
theorem binary32SpacingExponent_eq (x : ℚ) (e : Int) (he : -126 ≤ e)
    (h1 : (2 : ℚ) ^ e ≤ |x|) (h2 : |x| < (2 : ℚ) ^ (e + 1)) :
    binary32SpacingExponent x = e - 23 := by
  have hpos : (0 : ℚ) < |x| := lt_of_lt_of_le (zpow_pos (by norm_num) e) h1
  have hl1 : e ≤ Int.log 2 |x| := by
    rw [← Int.zpow_le_iff_le_log (by norm_num) hpos]
    simpa using h1
  have hl2 : Int.log 2 |x| < e + 1 := by
    rw [← Int.lt_zpow_iff_log_lt (by norm_num) hpos]
    simpa using h2
  unfold binary32SpacingExponent
  rw [max_eq_left (by omega)]
  omega

/-- Rounding of a value of exponent `e ≥ -126` that lies within less than half
a spacing of the multiple `m` of the spacing. -/
theorem roundBinary32_eq_of_near (x : ℚ) (e m : Int) (he : -126 ≤ e)
    (h1 : (2 : ℚ) ^ e ≤ |x|) (h2 : |x| < (2 : ℚ) ^ (e + 1))
    (hm : |x / (2 : ℚ) ^ (e - 23) - m| < 1 / 2) :
    roundBinary32 x = m * (2 : ℚ) ^ (e - 23) := by
  unfold roundBinary32
  rw [binary32SpacingExponent_eq x e he h1 h2, roundHalfEven_eq_of_near _ m hm]

/-- A non-negative exact result gives a non-negative `float`. -/
theorem roundBinary32_nonneg (x : ℚ) (h : 0 ≤ x) : 0 ≤ roundBinary32 x := by
  unfold roundBinary32
  have hp : (0 : ℚ) < (2 : ℚ) ^ binary32SpacingExponent x := zpow_pos (by norm_num) _
  have hq : 0 ≤ x / (2 : ℚ) ^ binary32SpacingExponent x := div_nonneg h (le_of_lt hp)
  have hr : (0 : ℚ) ≤ (roundHalfEven (x / (2 : ℚ) ^ binary32SpacingExponent x) : ℚ) := by
    exact_mod_cast roundHalfEven_nonneg _ hq
  exact mul_nonneg hr (le_of_lt hp)

/-- The spacing around a value of magnitude at least `2 ^ (-149)` is at most
that magnitude. -/
theorem binary32_spacing_le_abs (x : ℚ) (h : (2 : ℚ) ^ (-149 : Int) ≤ |x|) :
    (2 : ℚ) ^ binary32SpacingExponent x ≤ |x| := by
  have hpos : (0 : ℚ) < |x| := lt_of_lt_of_le (zpow_pos (by norm_num) _) h
  unfold binary32SpacingExponent
  by_cases hl : (-126 : Int) ≤ Int.log 2 |x|
  · rw [max_eq_left hl]
    have h3 : (2 : ℚ) ^ (Int.log 2 |x| - 23) ≤ (2 : ℚ) ^ (Int.log 2 |x|) :=
      zpow_le_zpow_right₀ (by norm_num) (by omega)
    have h4 : (2 : ℚ) ^ (Int.log 2 |x|) ≤ |x| := by
      have := Int.zpow_log_le_self (b := 2) (by norm_num) hpos
      simpa using this
    exact le_trans h3 h4
  · rw [max_eq_right (by omega)]
    norm_num at h ⊢
    exact h

/-- A negative exact result of magnitude at least `2 ^ (-149)` gives a negative
`float`. -/
theorem roundBinary32_neg (x : ℚ) (h : x ≤ -(2 : ℚ) ^ (-149 : Int)) : roundBinary32 x < 0 := by
  have h149 : (0 : ℚ) < (2 : ℚ) ^ (-149 : Int) := zpow_pos (by norm_num) _
  have hx : x < 0 := by linarith
  have habs : |x| = -x := abs_of_neg hx
  have hsp := binary32_spacing_le_abs x (by rw [habs]; linarith)
  have hp : (0 : ℚ) < (2 : ℚ) ^ binary32SpacingExponent x := zpow_pos (by norm_num) _
  have hq : x / (2 : ℚ) ^ binary32SpacingExponent x ≤ -1 := by
    rw [div_le_iff₀ hp]
    rw [habs] at hsp
    linarith
  have hr : (roundHalfEven (x / (2 : ℚ) ^ binary32SpacingExponent x) : ℚ) ≤ -1 := by
    exact_mod_cast roundHalfEven_le_neg_one _ hq
  unfold roundBinary32
  nlinarith

/-- Every binary32 value is a whole multiple of `2 ^ (-149)`. -/
theorem IsBinary32.multiple (x : ℚ) (h : IsBinary32 x) :
    ∃ n : Int, x = (n : ℚ) * (2 : ℚ) ^ (-149 : Int) := by
  have hk : (0 : Int) ≤ binary32SpacingExponent x + 149 := by
    unfold binary32SpacingExponent
    have := le_max_right (Int.log 2 |x|) (-126)
    omega
  obtain ⟨k, hk'⟩ := Int.eq_ofNat_of_zero_le hk
  have hz : (2 : ℚ) ^ binary32SpacingExponent x = (2 : ℚ) ^ k * (2 : ℚ) ^ (-149 : Int) := by
    have : binary32SpacingExponent x = (k : Int) + (-149) := by omega
    rw [this, zpow_add₀ (by norm_num), zpow_natCast]
  refine ⟨roundHalfEven (x / (2 : ℚ) ^ binary32SpacingExponent x) * 2 ^ k, ?_⟩
  have hx := h.1
  unfold roundBinary32 at hx
  rw [hz] at hx
  push_cast
  rw [hz]
  linarith [hx]

/-- The exact difference of two distinct binary32 values is at least
`2 ^ (-149)` in magnitude. -/
theorem IsBinary32.sub_le_of_lt (a b : ℚ) (ha : IsBinary32 a) (hb : IsBinary32 b)
    (hab : a < b) : a - b ≤ -(2 : ℚ) ^ (-149 : Int) := by
  obtain ⟨n, hn⟩ := IsBinary32.multiple a ha
  obtain ⟨m, hm⟩ := IsBinary32.multiple b hb
  have h149 : (0 : ℚ) < (2 : ℚ) ^ (-149 : Int) := zpow_pos (by norm_num) _
  have hnm : n < m := by
    by_contra hc
    have : (m : ℚ) ≤ n := by exact_mod_cast not_lt.mp hc
    have := mul_le_mul_of_nonneg_right this (le_of_lt h149)
    linarith
  have : (n : ℚ) + 1 ≤ m := by exact_mod_cast hnm
  rw [hn, hm]
  nlinarith

/-- The sign of the `float` difference of two binary32 values is the sign of
their exact difference. -/
theorem roundBinary32_sub_neg_iff (a b : ℚ) (ha : IsBinary32 a) (hb : IsBinary32 b) :
    roundBinary32 (a - b) < 0 ↔ a < b := by
  constructor
  · intro h
    by_contra hc
    have := roundBinary32_nonneg (a - b) (by linarith [not_lt.mp hc])
    linarith
  · intro h
    exact roundBinary32_neg _ (IsBinary32.sub_le_of_lt a b ha hb h)

/-! ## Player state: health change bookkeeping -/

/-- C1. For every health-change event handled by
`AGardumPlayerState::OnHealthChanged` on the victim's state, the victim's
`Deaths` becomes `(Deaths + 1) mod 2 ^ 16` when `NewValue ≤ 0` and is
unchanged otherwise, whatever `OldValue` and the instigator are. -/
theorem victim_deaths_on_health_change (self : Nat) (Data : FOnAttributeChangeData) (w : World) :
    (AGardumPlayerState.OnHealthChanged self Data w self).Deaths =
      if Data.NewValue ≤ 0 then ((w self).Deaths + 1) % 2 ^ 16 else (w self).Deaths := by
  have hK := fun w k p => World.update_preserves AGardumPlayerState.Deaths
    AGardumPlayerState.AddKill (fun _ => rfl) w k p
  have hD := fun v w k p => World.update_preserves AGardumPlayerState.Deaths
    (fun s => s.AddDamage v) (fun _ => rfl) w k p
  have hH := fun v w k p => World.update_preserves AGardumPlayerState.Deaths
    (fun s => s.AddHealing v) (fun _ => rfl) w k p
  unfold AGardumPlayerState.OnHealthChanged
  cases CastPawn Data.Instigator with
  | none =>
    by_cases h : Data.NewValue ≤ 0 <;> simp [h, AGardumPlayerState.AddDeath, wrapUInt16]
  | some a =>
    by_cases h : Data.NewValue ≤ 0 <;>
      by_cases h2 : roundBinary32 (Data.NewValue - Data.OldValue) < 0 <;>
      simp only [h, h2, if_true, if_false] <;>
      (first | rw [hD] | rw [hH]) <;> (try rw [hK]) <;>
      simp [AGardumPlayerState.AddDeath, wrapUInt16]

/-- The `Kills` of the instigator's player state after a health-change event
with a pawn instigator: incremented with `int16` wrap-around when
`NewValue ≤ 0`, unchanged otherwise. -/
theorem kills_after_event (self : Nat) (Data : FOnAttributeChangeData) (w : World)
    (a : AActor) (ha : CastPawn Data.Instigator = some a) :
    (AGardumPlayerState.OnHealthChanged self Data w a.PlayerState).Kills =
      if Data.NewValue ≤ 0 then wrapInt16 ((w a.PlayerState).Kills + 1)
      else (w a.PlayerState).Kills := by
  have hDe := fun w k p => World.update_preserves AGardumPlayerState.Kills
    AGardumPlayerState.AddDeath (fun _ => rfl) w k p
  have hD := fun v w k p => World.update_preserves AGardumPlayerState.Kills
    (fun s => s.AddDamage v) (fun _ => rfl) w k p
  have hH := fun v w k p => World.update_preserves AGardumPlayerState.Kills
    (fun s => s.AddHealing v) (fun _ => rfl) w k p
  unfold AGardumPlayerState.OnHealthChanged
  rw [ha]
  by_cases h : Data.NewValue ≤ 0 <;>
      by_cases h2 : roundBinary32 (Data.NewValue - Data.OldValue) < 0 <;>
    simp only [h, h2, if_true, if_false] <;>
    (first | rw [hD] | rw [hH]) <;>
    simp [AGardumPlayerState.AddKill, hDe]

/-- C2, counterexample. A pawn instigator whose player state holds
`Kills = 32767` kills a victim (`NewValue = 0`): `Kills` becomes `-32768`, not
`32768`. -/
theorem instigator_kills_wrap_at_int16_max :
    let Killer : AActor := { Id := 7, Class := EActorClass.Hero, PlayerState := 1 }
    let Data : FOnAttributeChangeData := { NewValue := 0, OldValue := 1, Instigator := some Killer }
    let w : World := Function.update World.init 1 { AGardumPlayerState.init with Kills := 32767 }
    CastPawn Data.Instigator = some Killer ∧ Data.NewValue ≤ 0 ∧
      (w Killer.PlayerState).Kills = 32767 ∧
      (AGardumPlayerState.OnHealthChanged 0 Data w Killer.PlayerState).Kills = -32768 ∧
      (AGardumPlayerState.OnHealthChanged 0 Data w Killer.PlayerState).Kills ≠
        (w Killer.PlayerState).Kills + 1 := by
  intro Killer Data w
  have hk : (AGardumPlayerState.OnHealthChanged 0 Data w Killer.PlayerState).Kills = -32768 := by
    rw [kills_after_event 0 Data w Killer rfl]
    simp [Data, w, Killer, wrapInt16]
  refine ⟨rfl, le_refl _, by simp [w, Killer], hk, ?_⟩
  rw [hk]
  simp [w, Killer]

/-- C2, amended. For every health-change event whose instigator is a pawn and
whose instigator state holds an `int16` value of `Kills`: when `NewValue ≤ 0`
the instigator's `Kills` increases by exactly 1 if it is below `32767` and
wraps to `-32768` if it is `32767`; when `NewValue > 0` it is unchanged. The
instigator's state may be the victim's own state. -/
theorem instigator_kills_on_health_change (self : Nat) (Data : FOnAttributeChangeData) (w : World)
    (a : AActor) (ha : CastPawn Data.Instigator = some a)
    (hlo : -2 ^ 15 ≤ (w a.PlayerState).Kills) (hhi : (w a.PlayerState).Kills ≤ 2 ^ 15 - 1) :
    (AGardumPlayerState.OnHealthChanged self Data w a.PlayerState).Kills =
      if Data.NewValue ≤ 0 then
        (if (w a.PlayerState).Kills = 2 ^ 15 - 1 then -2 ^ 15 else (w a.PlayerState).Kills + 1)
      else (w a.PlayerState).Kills := by
  rw [kills_after_event self Data w a ha]
  by_cases h : Data.NewValue ≤ 0
  · simp only [h, if_true]
    by_cases hm : (w a.PlayerState).Kills = 2 ^ 15 - 1
    · rw [if_pos hm, hm]; decide
    · rw [if_neg hm]
      exact wrapInt16_succ_of_lt _ hlo (lt_of_le_of_ne hhi hm)
  · simp only [h, if_false]

/-- Witness for C2: a self-inflicted death. The hero whose
player state is the victim's own state (address 0) is the instigator, and the
state's `Kills` goes from 0 to 1. -/
theorem instigator_kills_on_health_change_witness :
    CastPawn (some { Id := 7, Class := EActorClass.Hero, PlayerState := 0 }) =
        some { Id := 7, Class := EActorClass.Hero, PlayerState := 0 } ∧
      (AGardumPlayerState.OnHealthChanged 0
        { NewValue := 0, OldValue := 5,
          Instigator := some { Id := 7, Class := EActorClass.Hero, PlayerState := 0 } }
        World.init 0).Kills = 1 := by
  have h := instigator_kills_on_health_change 0
    { NewValue := 0, OldValue := 5,
      Instigator := some { Id := 7, Class := EActorClass.Hero, PlayerState := 0 } }
    World.init { Id := 7, Class := EActorClass.Hero, PlayerState := 0 } rfl
    (by simp [World.init, AGardumPlayerState.init])
    (by simp [World.init, AGardumPlayerState.init])
  refine ⟨rfl, ?_⟩
  simpa [World.init, AGardumPlayerState.init] using h

/-- With a pawn instigator, the instigator's state after the event is the
state before the accumulator update with exactly one of `AddDamage`,
`AddHealing` applied, to the `float` value of the difference. -/
theorem instigator_state_after_event (self : Nat) (Data : FOnAttributeChangeData) (w : World)
    (a : AActor) (ha : CastPawn Data.Instigator = some a) :
    AGardumPlayerState.OnHealthChanged self Data w a.PlayerState =
      if roundBinary32 (Data.NewValue - Data.OldValue) < 0 then
        (AGardumPlayerState.beforeAccumulate self Data w a.PlayerState).AddDamage
          (castUInt32 (-roundBinary32 (Data.NewValue - Data.OldValue)))
      else
        (AGardumPlayerState.beforeAccumulate self Data w a.PlayerState).AddHealing
          (castUInt32 (roundBinary32 (Data.NewValue - Data.OldValue))) := by
  unfold AGardumPlayerState.OnHealthChanged AGardumPlayerState.beforeAccumulate
  rw [ha]
  by_cases h : Data.NewValue ≤ 0 <;>
    by_cases h2 : roundBinary32 (Data.NewValue - Data.OldValue) < 0 <;>
    simp only [h, h2, if_true, if_false, Function.update_same]

/-- An observation that neither `AddDeath` nor `AddKill` changes reads the same
on the state before the accumulator update as on the initial state. -/
theorem beforeAccumulate_preserves {β : Type} (g : AGardumPlayerState → β)
    (hDe : ∀ s, g s.AddDeath = g s) (hK : ∀ s, g s.AddKill = g s)
    (self : Nat) (Data : FOnAttributeChangeData) (w : World) (st : Nat) :
    g (AGardumPlayerState.beforeAccumulate self Data w st) = g (w st) := by
  unfold AGardumPlayerState.beforeAccumulate
  by_cases h : Data.NewValue ≤ 0
  · simp only [h, if_true]
    rw [hK]
    exact World.update_preserves g AGardumPlayerState.AddDeath hDe w self st
  · simp only [h, if_false]

/-- A value of exponent `e ≥ -126` that is a whole multiple of the spacing of
that exponent, and below `2 ^ 128`, is a binary32 value. -/
theorem IsBinary32.of_exponent (x : ℚ) (e m : Int) (he : -126 ≤ e)
    (h1 : (2 : ℚ) ^ e ≤ |x|) (h2 : |x| < (2 : ℚ) ^ (e + 1))
    (hx : x = m * (2 : ℚ) ^ (e - 23)) (hfin : |x| < 2 ^ 128) : IsBinary32 x := by
  have hp : (2 : ℚ) ^ (e - 23) ≠ 0 := ne_of_gt (zpow_pos (by norm_num) _)
  have hm : |x / (2 : ℚ) ^ (e - 23) - m| < 1 / 2 := by
    have : x / (2 : ℚ) ^ (e - 23) = m := by
      rw [hx]; field_simp
    rw [this]; norm_num
  exact ⟨by rw [roundBinary32_eq_of_near x e m he h1 h2 hm, ← hx], hfin⟩

/-- The `float` difference of `100` and `2 ^ (-20)` is `100`. -/
theorem roundBinary32_hundred_sub_tiny : roundBinary32 ((100 : ℚ) - 1 / 1048576) = 100 := by
  have hpos : |(100 : ℚ) - 1 / 1048576| = 100 - 1 / 1048576 := abs_of_pos (by norm_num)
  rw [roundBinary32_eq_of_near ((100 : ℚ) - 1 / 1048576) 6 13107200 (by norm_num)
    (by rw [hpos]; norm_num) (by rw [hpos]; norm_num)
    (by rw [abs_lt]; constructor <;> norm_num)]
  norm_num

/-- C3, counterexample. Health goes from the binary32 value `2 ^ (-20)` to the
binary32 value `100`, caused by a pawn: the exact difference is below `2 ^ 32`
and its integer part is 99, but the `float` difference is `100` and the
instigator is credited 100 points of healing. -/
theorem instigator_healing_rounded_in_binary32 :
    IsBinary32 100 ∧ IsBinary32 (1 / 1048576) ∧
      |(100 : ℚ) - 1 / 1048576| < 2 ^ 32 ∧ ¬ ((100 : ℚ) < 1 / 1048576) ∧
      Nat.floor ((100 : ℚ) - 1 / 1048576) = 99 ∧
      (AGardumPlayerState.OnHealthChanged 0
        { NewValue := 100, OldValue := 1 / 1048576,
          Instigator := some { Id := 7, Class := EActorClass.Hero, PlayerState := 1 } }
        World.init 1).Healing = 100 ∧
      (AGardumPlayerState.OnHealthChanged 0
        { NewValue := 100, OldValue := 1 / 1048576,
          Instigator := some { Id := 7, Class := EActorClass.Hero, PlayerState := 1 } }
        World.init 1).Healing ≠
        ((World.init 1).Healing + Nat.floor ((100 : ℚ) - 1 / 1048576)) % 2 ^ 32 := by
  have hb1 : IsBinary32 100 :=
    IsBinary32.of_exponent 100 6 13107200 (by norm_num) (by norm_num [abs_of_pos])
      (by norm_num [abs_of_pos]) (by norm_num) (by norm_num [abs_of_pos])
  have hb2 : IsBinary32 (1 / 1048576) :=
    IsBinary32.of_exponent (1 / 1048576) (-20) 8388608 (by norm_num)
      (by norm_num [abs_of_pos]) (by norm_num [abs_of_pos]) (by norm_num)
      (by norm_num [abs_of_pos])
  have hfl : Nat.floor ((100 : ℚ) - 1 / 1048576) = 99 := by
    rw [Nat.floor_eq_iff (by norm_num)]; constructor <;> norm_num
  have hs := instigator_state_after_event 0
    { NewValue := 100, OldValue := 1 / 1048576,
      Instigator := some { Id := 7, Class := EActorClass.Hero, PlayerState := 1 } }
    World.init { Id := 7, Class := EActorClass.Hero, PlayerState := 1 } rfl
  have hH := beforeAccumulate_preserves AGardumPlayerState.Healing (fun _ => rfl)
    (fun _ => rfl) 0
    { NewValue := 100, OldValue := 1 / 1048576,
      Instigator := some { Id := 7, Class := EActorClass.Hero, PlayerState := 1 } }
    World.init 1
  have hc : castUInt32 (100 : ℚ) = 100 := by
    rw [castUInt32_of_nonneg_of_lt _ (by norm_num) (by norm_num)]
    exact Nat.floor_natCast 100
  simp only [roundBinary32_hundred_sub_tiny] at hs
  rw [if_neg (by norm_num), hc] at hs
  have hheal : (AGardumPlayerState.OnHealthChanged 0
      { NewValue := 100, OldValue := 1 / 1048576,
        Instigator := some { Id := 7, Class := EActorClass.Hero, PlayerState := 1 } }
      World.init 1).Healing = 100 := by
    rw [hs]
    simp only [AGardumPlayerState.AddHealing, wrapUInt32]
    rw [hH]
    simp [World.init, AGardumPlayerState.init]
  refine ⟨hb1, hb2, ?_, by norm_num, hfl, hheal, ?_⟩
  · rw [abs_lt]; constructor <;> norm_num
  · rw [hheal, hfl]
    simp [World.init, AGardumPlayerState.init]

/-- C3, amended. For every health-change event with a pawn instigator whose
`NewValue` and `OldValue` are binary32 values, with `D` the `float` result of
`NewValue - OldValue` (rounded to binary32) and `|D| < 2 ^ 32`: if
`NewValue < OldValue` the instigator's `Damage` becomes
`(Damage + ⌊-D⌋) mod 2 ^ 32` and its `Healing` is unchanged; otherwise its
`Healing` becomes `(Healing + ⌊D⌋) mod 2 ^ 32` and its `Damage` is unchanged.
Exactly one of the two accumulators is updated: the instigator state's
damage / healing delegates broadcast exactly once, the new value of the
updated accumulator. -/
theorem instigator_damage_or_healing (self : Nat) (Data : FOnAttributeChangeData) (w : World)
    (a : AActor) (ha : CastPawn Data.Instigator = some a)
    (hN : IsBinary32 Data.NewValue) (hO : IsBinary32 Data.OldValue)
    (hd : |roundBinary32 (Data.NewValue - Data.OldValue)| < 2 ^ 32) :
    let s := w a.PlayerState
    let s' := AGardumPlayerState.OnHealthChanged self Data w a.PlayerState
    (if Data.NewValue < Data.OldValue then
        s'.Damage =
            (s.Damage + Nat.floor (-roundBinary32 (Data.NewValue - Data.OldValue))) % 2 ^ 32 ∧
          s'.Healing = s.Healing ∧
          s'.Broadcasts.filter EStatBroadcast.IsAccumulator =
            s.Broadcasts.filter EStatBroadcast.IsAccumulator ++ [EStatBroadcast.Damage s'.Damage]
      else
        s'.Healing =
            (s.Healing + Nat.floor (roundBinary32 (Data.NewValue - Data.OldValue))) % 2 ^ 32 ∧
          s'.Damage = s.Damage ∧
          s'.Broadcasts.filter EStatBroadcast.IsAccumulator =
            s.Broadcasts.filter EStatBroadcast.IsAccumulator ++
              [EStatBroadcast.Healing s'.Healing]) := by
  intro s s'
  have habs := abs_lt.mp hd
  have hsign := roundBinary32_sub_neg_iff Data.NewValue Data.OldValue hN hO
  have hDmg := beforeAccumulate_preserves AGardumPlayerState.Damage (fun _ => rfl) (fun _ => rfl)
    self Data w a.PlayerState
  have hHeal := beforeAccumulate_preserves AGardumPlayerState.Healing (fun _ => rfl)
    (fun _ => rfl) self Data w a.PlayerState
  have hLog := beforeAccumulate_preserves
    (fun t => t.Broadcasts.filter EStatBroadcast.IsAccumulator)
    (fun t => by
      simp [AGardumPlayerState.AddDeath, List.filter_append, EStatBroadcast.IsAccumulator])
    (fun t => by
      simp [AGardumPlayerState.AddKill, List.filter_append, EStatBroadcast.IsAccumulator])
    self Data w a.PlayerState
  simp only at hLog
  have hs' := instigator_state_after_event self Data w a ha
  by_cases h2 : Data.NewValue < Data.OldValue
  · have h2' : roundBinary32 (Data.NewValue - Data.OldValue) < 0 := hsign.mpr h2
    have hc : castUInt32 (-roundBinary32 (Data.NewValue - Data.OldValue)) =
        Nat.floor (-roundBinary32 (Data.NewValue - Data.OldValue)) :=
      castUInt32_of_nonneg_of_lt _ (by linarith) (by linarith)
    rw [if_pos h2', hc] at hs'
    rw [if_pos h2]
    simp only [s, s', hs']
    simp [AGardumPlayerState.AddDamage, wrapUInt32, List.filter_append,
      EStatBroadcast.IsAccumulator, hDmg, hHeal, hLog]
  · have h2' : ¬ roundBinary32 (Data.NewValue - Data.OldValue) < 0 := fun h => h2 (hsign.mp h)
    have hc : castUInt32 (roundBinary32 (Data.NewValue - Data.OldValue)) =
        Nat.floor (roundBinary32 (Data.NewValue - Data.OldValue)) :=
      castUInt32_of_nonneg_of_lt _ (by linarith) (by linarith)
    rw [if_neg h2', hc] at hs'
    rw [if_neg h2]
    simp only [s, s', hs']
    simp [AGardumPlayerState.AddHealing, wrapUInt32, List.filter_append,
      EStatBroadcast.IsAccumulator, hDmg, hHeal, hLog]

/-- Witness for C3: health drops from 30 to 2.5, both binary32 values with the
`float` difference `-27.5`; the instigator is credited 27 points of damage and
no healing. -/
theorem instigator_damage_or_healing_witness :
    IsBinary32 (5 / 2) ∧ IsBinary32 30 ∧ |roundBinary32 ((5 : ℚ) / 2 - 30)| < 2 ^ 32 ∧
      (AGardumPlayerState.OnHealthChanged 0
        { NewValue := 5 / 2, OldValue := 30,
          Instigator := some { Id := 7, Class := EActorClass.Hero, PlayerState := 1 } }
        World.init 1).Damage = 27 ∧
      (AGardumPlayerState.OnHealthChanged 0
        { NewValue := 5 / 2, OldValue := 30,
          Instigator := some { Id := 7, Class := EActorClass.Hero, PlayerState := 1 } }
        World.init 1).Healing = 0 := by
  have hb1 : IsBinary32 (5 / 2) :=
    IsBinary32.of_exponent (5 / 2) 1 10485760 (by norm_num) (by norm_num [abs_of_pos])
      (by norm_num [abs_of_pos]) (by norm_num) (by norm_num [abs_of_pos])
  have hb2 : IsBinary32 30 :=
    IsBinary32.of_exponent 30 4 15728640 (by norm_num) (by norm_num [abs_of_pos])
      (by norm_num [abs_of_pos]) (by norm_num) (by norm_num [abs_of_pos])
  have hneg : |(5 : ℚ) / 2 - 30| = 55 / 2 := by
    rw [abs_of_neg (by norm_num)]; norm_num
  have hr : roundBinary32 ((5 : ℚ) / 2 - 30) = -(55 / 2) := by
    rw [roundBinary32_eq_of_near ((5 : ℚ) / 2 - 30) 4 (-14417920) (by norm_num)
      (by rw [hneg]; norm_num) (by rw [hneg]; norm_num)
      (by rw [abs_lt]; constructor <;> norm_num)]
    norm_num
  have hd : |roundBinary32 ((5 : ℚ) / 2 - 30)| < 2 ^ 32 := by
    rw [hr, abs_lt]; constructor <;> norm_num
  have hfl : Nat.floor (-(-((55 : ℚ) / 2))) = 27 := by
    rw [Nat.floor_eq_iff (by norm_num)]; constructor <;> norm_num
  have h := instigator_damage_or_healing 0
    { NewValue := 5 / 2, OldValue := 30,
      Instigator := some { Id := 7, Class := EActorClass.Hero, PlayerState := 1 } }
    World.init { Id := 7, Class := EActorClass.Hero, PlayerState := 1 } rfl hb1 hb2 hd
  simp only [hr, hfl] at h
  rw [if_pos (by norm_num)] at h
  refine ⟨hb1, hb2, hd, ?_, ?_⟩
  · simpa [World.init, AGardumPlayerState.init] using h.1
  · simpa [World.init, AGardumPlayerState.init] using h.2.1

/-- C4. For every health-change event whose instigator is not a pawn (null
after the cast), no player state's `Kills`, `Damage` or `Healing` changes;
every state other than the victim's is untouched and the victim's state is
changed by `AddDeath` at most. -/
theorem non_pawn_instigator_frame (self : Nat) (Data : FOnAttributeChangeData) (w : World)
    (ha : CastPawn Data.Instigator = none) (p : Nat) :
    let w' := AGardumPlayerState.OnHealthChanged self Data w
    (w' p).Kills = (w p).Kills ∧ (w' p).Damage = (w p).Damage ∧
      (w' p).Healing = (w p).Healing ∧
      (p ≠ self → w' p = w p) ∧
      w' self = (if Data.NewValue ≤ 0 then (w self).AddDeath else w self) := by
  intro w'
  have hw : w' = if Data.NewValue ≤ 0 then Function.update w self (w self).AddDeath else w := by
    simp only [w']
    unfold AGardumPlayerState.OnHealthChanged
    rw [ha]
  rw [hw]
  by_cases h : Data.NewValue ≤ 0
  · simp only [h, if_true, Function.update_same]
    refine ⟨?_, ?_, ?_, fun hp => Function.update_noteq hp _ _, trivial⟩
    · exact World.update_preserves AGardumPlayerState.Kills AGardumPlayerState.AddDeath
        (fun _ => rfl) w self p
    · exact World.update_preserves AGardumPlayerState.Damage AGardumPlayerState.AddDeath
        (fun _ => rfl) w self p
    · exact World.update_preserves AGardumPlayerState.Healing AGardumPlayerState.AddDeath
        (fun _ => rfl) w self p
  · simp [h]

/-- Witness for C4: a lethal event caused by an actor
that is not a pawn leaves the state the actor points at untouched. -/
theorem non_pawn_instigator_frame_witness :
    CastPawn (some { Id := 9, Class := EActorClass.Actor, PlayerState := 1 }) = none ∧
      (AGardumPlayerState.OnHealthChanged 0
        { NewValue := 0, OldValue := 30,
          Instigator := some { Id := 9, Class := EActorClass.Actor, PlayerState := 1 } }
        World.init 1) = World.init 1 := by
  have h := non_pawn_instigator_frame 0
    { NewValue := 0, OldValue := 30,
      Instigator := some { Id := 9, Class := EActorClass.Actor, PlayerState := 1 } }
    World.init rfl 1
  exact ⟨rfl, h.2.2.2.1 (by decide)⟩

/-- After `A.CopyProperties(B)` both `B` and `A` hold the stats `A` had. -/
theorem CopyProperties_stats (a b : Nat) (w : World) :
    (AGardumPlayerState.CopyProperties a (some b) w b).Stats = (w a).Stats ∧
      (AGardumPlayerState.CopyProperties a (some b) w a).Stats = (w a).Stats := by
  unfold AGardumPlayerState.CopyProperties
  by_cases h : a = b
  · subst h
    simp [AGardumPlayerState.Stats, AGardumPlayerState.GetKills, AGardumPlayerState.GetDeaths,
      AGardumPlayerState.GetDamage, AGardumPlayerState.GetHealing]
  · simp [AGardumPlayerState.Stats, AGardumPlayerState.GetKills, AGardumPlayerState.GetDeaths,
      AGardumPlayerState.GetDamage, AGardumPlayerState.GetHealing, Function.update_noteq h]

/-- After `C.OverrideWith(B)` the state `C` holds the stats `B` had. -/
theorem OverrideWith_stats (c b : Nat) (w : World) :
    (AGardumPlayerState.OverrideWith c (some b) w c).Stats = (w b).Stats := by
  unfold AGardumPlayerState.OverrideWith
  by_cases h : b = c
  · subst h
    simp [AGardumPlayerState.Stats, AGardumPlayerState.GetKills, AGardumPlayerState.GetDeaths,
      AGardumPlayerState.GetDamage, AGardumPlayerState.GetHealing]
  · simp [AGardumPlayerState.Stats, AGardumPlayerState.GetKills, AGardumPlayerState.GetDeaths,
      AGardumPlayerState.GetDamage, AGardumPlayerState.GetHealing, Function.update_noteq h]

/-- C5. Stats survive the save / restore round trip: after
`A.CopyProperties(B)` the four stats of `B` equal those of `A` and those of
`A` are unchanged; after `C.OverrideWith(B)` on that world the four stats of
`C` equal the original stats of `A`, in particular for `C = A`. The three
addresses may coincide. -/
theorem stats_copy_override_roundtrip (a b c : Nat) (w : World) :
    let w1 := AGardumPlayerState.CopyProperties a (some b) w
    (w1 b).Stats = (w a).Stats ∧ (w1 a).Stats = (w a).Stats ∧
      (AGardumPlayerState.OverrideWith c (some b) w1 c).Stats = (w a).Stats ∧
      (AGardumPlayerState.OverrideWith a (some b) w1 a).Stats = (w a).Stats := by
  intro w1
  have h1 := CopyProperties_stats a b w
  refine ⟨h1.1, h1.2, ?_, ?_⟩
  · rw [OverrideWith_stats]; exact h1.1
  · rw [OverrideWith_stats]; exact h1.1

/-! ## Heroes: forwarding of health changes -/

/-- C6. `AHero::OnHealthChanged` calls `OnHealthChanged` of its player state
exactly once, with the same event, when the net mode is `NM_Standalone`,
`NM_DedicatedServer` or `NM_ListenServer`, and the player states are then
those this one call produces; when the net mode is `NM_Client` it makes no
such call and every player state is left as it was. -/
theorem hero_forwards_on_server_only (h : AHero) (Data : FOnAttributeChangeData) (w : World) :
    (({ h with NetMode := ENetMode.NM_Standalone }.OnHealthChanged Data w).Forwarded =
        [(h.PlayerState, Data)] ∧
      ({ h with NetMode := ENetMode.NM_Standalone }.OnHealthChanged Data w).States =
        AGardumPlayerState.OnHealthChanged h.PlayerState Data w) ∧
    (({ h with NetMode := ENetMode.NM_DedicatedServer }.OnHealthChanged Data w).Forwarded =
        [(h.PlayerState, Data)] ∧
      ({ h with NetMode := ENetMode.NM_DedicatedServer }.OnHealthChanged Data w).States =
        AGardumPlayerState.OnHealthChanged h.PlayerState Data w) ∧
    (({ h with NetMode := ENetMode.NM_ListenServer }.OnHealthChanged Data w).Forwarded =
        [(h.PlayerState, Data)] ∧
      ({ h with NetMode := ENetMode.NM_ListenServer }.OnHealthChanged Data w).States =
        AGardumPlayerState.OnHealthChanged h.PlayerState Data w) ∧
    (({ h with NetMode := ENetMode.NM_Client }.OnHealthChanged Data w).Forwarded = [] ∧
      ({ h with NetMode := ENetMode.NM_Client }.OnHealthChanged Data w).States = w) := by
  refine ⟨?_, ?_, ?_, ?_⟩ <;>
    by_cases hv : Data.NewValue ≤ 0 <;>
    by_cases hr : h.LocalRole = ENetRole.ROLE_Authority <;>
    simp [AHero.OnHealthChanged, AHero.HasAuthority, ENetMode.toNat, hv, hr]

/-! ## Projectiles -/

/-- C7. When the other actor of an overlap is the projectile's own instigator,
`OnProjectileBeginOverlap` applies no gameplay effect and leaves the
projectile as it was (not destroyed), whatever the local role is. -/
theorem overlap_with_own_instigator (p : AProjectile) (OverlappedActor OtherActor : Option AActor)
    (h : p.Instigator = OtherActor.map AActor.Id) :
    (p.OnProjectileBeginOverlap OverlappedActor OtherActor).Applied = [] ∧
      (p.OnProjectileBeginOverlap OverlappedActor OtherActor).Projectile = p := by
  simp [AProjectile.OnProjectileBeginOverlap, h]

/-- Witness for C7: a projectile with authority
overlaps the hero that fired it. -/
theorem overlap_with_own_instigator_witness :
    (some 7 : Option Nat) =
        (some { Id := 7, Class := EActorClass.Hero, PlayerState := 1 } : Option AActor).map
          AActor.Id ∧
      ((AProjectile.mk (some 7) ENetRole.ROLE_Authority ⟨3⟩ false).OnProjectileBeginOverlap none
          (some { Id := 7, Class := EActorClass.Hero, PlayerState := 1 })).Applied = [] ∧
      ((AProjectile.mk (some 7) ENetRole.ROLE_Authority ⟨3⟩ false).OnProjectileBeginOverlap none
          (some { Id := 7, Class := EActorClass.Hero, PlayerState := 1 })).Projectile.Destroyed =
        false := by
  have h := overlap_with_own_instigator (AProjectile.mk (some 7) ENetRole.ROLE_Authority ⟨3⟩ false) none
    (some { Id := 7, Class := EActorClass.Hero, PlayerState := 1 }) rfl
  refine ⟨rfl, h.1, ?_⟩
  rw [h.2]

/-- C8. When the other actor of an overlap is not the projectile's instigator,
`OnProjectileBeginOverlap` destroys the projectile, and it applies the stored
damage effect spec to the other actor exactly once if the local role is
`ROLE_Authority` and the other actor is a hero, and applies nothing
otherwise. -/
theorem overlap_with_other_actor (p : AProjectile) (OverlappedActor OtherActor : Option AActor)
    (h : p.Instigator ≠ OtherActor.map AActor.Id) :
    (p.OnProjectileBeginOverlap OverlappedActor OtherActor).Projectile =
        { p with Destroyed := true } ∧
      (p.OnProjectileBeginOverlap OverlappedActor OtherActor).Applied =
        (match OtherActor with
          | some Other =>
            if p.LocalRole = ENetRole.ROLE_Authority ∧ Other.Class = EActorClass.Hero then
              [(Other.Id, p.DamageEffectSpecHandle)]
            else []
          | none => []) := by
  unfold AProjectile.OnProjectileBeginOverlap
  rw [if_neg h]
  refine ⟨rfl, ?_⟩
  cases OtherActor with
  | none => by_cases hr : p.LocalRole = ENetRole.ROLE_Authority <;> simp [hr, CastHero]
  | some o =>
    by_cases hr : p.LocalRole = ENetRole.ROLE_Authority <;>
      cases hc : o.Class <;> simp [hr, hc, CastHero, EActorClass.IsHero]

/-- Witness for C8: a projectile with authority hits a
hero other than its instigator. -/
theorem overlap_with_other_actor_witness :
    (some 7 : Option Nat) ≠
        (some { Id := 8, Class := EActorClass.Hero, PlayerState := 2 } : Option AActor).map
          AActor.Id ∧
      ((AProjectile.mk (some 7) ENetRole.ROLE_Authority ⟨3⟩ false).OnProjectileBeginOverlap none
          (some { Id := 8, Class := EActorClass.Hero, PlayerState := 2 })).Applied = [(8, ⟨3⟩)] ∧
      ((AProjectile.mk (some 7) ENetRole.ROLE_Authority ⟨3⟩ false).OnProjectileBeginOverlap none
          (some { Id := 8, Class := EActorClass.Hero, PlayerState := 2 })).Projectile.Destroyed =
        true := by
  have h := overlap_with_other_actor (AProjectile.mk (some 7) ENetRole.ROLE_Authority ⟨3⟩ false) none
    (some { Id := 8, Class := EActorClass.Hero, PlayerState := 2 }) (by decide)
  refine ⟨by decide, ?_, ?_⟩
  · rw [h.2]; rfl
  · rw [h.1]

/-! ## Heroes: turn rates -/

/-- Yaw input accumulated over a run of frames at a fixed rate. -/
theorem TurnFrames_yaw (h : AHero) (Rate : ℚ) (Frames : List ℚ) :
    (h.TurnFrames Rate Frames).YawInput = h.YawInput + Rate * 45 * Frames.sum := by
  unfold AHero.TurnFrames
  induction Frames generalizing h with
  | nil => simp
  | cons dt rest ih =>
    rw [List.foldl_cons, ih]
    simp [AHero.TurnAtRate, AHero.AddControllerYawInput, AHero.BaseTurnRate]
    ring

/-- Pitch input accumulated over a run of frames at a fixed rate. -/
theorem LookUpFrames_pitch (h : AHero) (Rate : ℚ) (Frames : List ℚ) :
    (h.LookUpFrames Rate Frames).PitchInput = h.PitchInput + Rate * 45 * Frames.sum := by
  unfold AHero.LookUpFrames
  induction Frames generalizing h with
  | nil => simp
  | cons dt rest ih =>
    rw [List.foldl_cons, ih]
    simp [AHero.LookUpAtRate, AHero.AddControllerPitchInput, AHero.BaseLookUpRate]
    ring

/-- C10. `TurnAtRate r` adds `r * 45 * dt` to the yaw input and
`LookUpAtRate r` adds `r * 45 * dt` to the pitch input; held at rate 1 over
frames whose times sum to one second each yields 45 degrees; and the input
added is additive and homogeneous in the rate. -/
theorem turn_and_look_up_rates (h : AHero) (r r' c dt : ℚ) (Frames : List ℚ)
    (hsum : Frames.sum = 1) :
    (h.TurnAtRate dt r).YawInput = h.YawInput + r * 45 * dt ∧
      (h.LookUpAtRate dt r).PitchInput = h.PitchInput + r * 45 * dt ∧
      (h.TurnFrames 1 Frames).YawInput = h.YawInput + 45 ∧
      (h.LookUpFrames 1 Frames).PitchInput = h.PitchInput + 45 ∧
      (h.TurnAtRate dt (r + r')).YawInput - h.YawInput =
        ((h.TurnAtRate dt r).YawInput - h.YawInput) +
          ((h.TurnAtRate dt r').YawInput - h.YawInput) ∧
      (h.TurnAtRate dt (c * r)).YawInput - h.YawInput =
        c * ((h.TurnAtRate dt r).YawInput - h.YawInput) ∧
      (h.LookUpAtRate dt (r + r')).PitchInput - h.PitchInput =
        ((h.LookUpAtRate dt r).PitchInput - h.PitchInput) +
          ((h.LookUpAtRate dt r').PitchInput - h.PitchInput) ∧
      (h.LookUpAtRate dt (c * r)).PitchInput - h.PitchInput =
        c * ((h.LookUpAtRate dt r).PitchInput - h.PitchInput) := by
  refine ⟨?_, ?_, ?_, ?_, ?_, ?_, ?_, ?_⟩
  · simp [AHero.TurnAtRate, AHero.AddControllerYawInput, AHero.BaseTurnRate]
  · simp [AHero.LookUpAtRate, AHero.AddControllerPitchInput, AHero.BaseLookUpRate]
  · rw [TurnFrames_yaw, hsum]; ring
  · rw [LookUpFrames_pitch, hsum]; ring
  · simp [AHero.TurnAtRate, AHero.AddControllerYawInput, AHero.BaseTurnRate]; ring
  · simp [AHero.TurnAtRate, AHero.AddControllerYawInput, AHero.BaseTurnRate]; ring
  · simp [AHero.LookUpAtRate, AHero.AddControllerPitchInput, AHero.BaseLookUpRate]; ring
  · simp [AHero.LookUpAtRate, AHero.AddControllerPitchInput, AHero.BaseLookUpRate]; ring

/-- Witness for C10: three frames of 1/2, 1/4 and 1/4
second at rate 1 turn by 45 degrees. -/
theorem turn_and_look_up_rates_witness :
    ([1 / 2, 1 / 4, 1 / 4] : List ℚ).sum = 1 ∧
      ((AHero.mk 1 ENetMode.NM_Standalone ENetRole.ROLE_Authority 0 true false true 0 0).TurnFrames
        1 [1 / 2, 1 / 4, 1 / 4]).YawInput = 45 := by
  have hs : ([1 / 2, 1 / 4, 1 / 4] : List ℚ).sum = 1 := by norm_num
  have h := turn_and_look_up_rates (AHero.mk 1 ENetMode.NM_Standalone ENetRole.ROLE_Authority 0 true false true 0 0)
    1 0 1 1 [1 / 2, 1 / 4, 1 / 4] hs
  refine ⟨hs, ?_⟩
  rw [h.2.2.1]
  norm_num

/-! ## Blink -/

section BlinkProofs

variable {α : Type} [LinearOrderedField α] [FloorRing α]

/-- `Fmod X 360` differs from `X` by a whole number of turns. -/
theorem FMath.Fmod_eq_sub_turns (X : α) : ∃ k : Int, FMath.Fmod X 360 = X - 360 * (k : α) := by
  unfold FMath.Fmod
  by_cases h : 0 ≤ X / 360
  · exact ⟨Int.floor (X / 360), by rw [if_pos h]⟩
  · exact ⟨Int.ceil (X / 360), by rw [if_neg h]⟩

/-- `NormalizeAxis` changes an angle by a whole number of turns. -/
theorem FRotator.NormalizeAxis_eq_sub_turns (X : α) :
    ∃ k : Int, FRotator.NormalizeAxis X = X - 360 * (k : α) := by
  obtain ⟨k, hk⟩ := FMath.Fmod_eq_sub_turns X
  unfold FRotator.NormalizeAxis FRotator.ClampAxis
  simp only [hk]
  by_cases h1 : X - 360 * (k : α) < 0
  · simp only [h1, if_true]
    by_cases h2 : X - 360 * (k : α) + 360 > 180
    · refine ⟨k, ?_⟩
      rw [if_pos h2]; ring
    · refine ⟨k - 1, ?_⟩
      rw [if_neg h2]; push_cast; ring
  · simp only [h1, if_false]
    by_cases h2 : X - 360 * (k : α) > 180
    · refine ⟨k + 1, ?_⟩
      rw [if_pos h2]; push_cast; ring
    · refine ⟨k, ?_⟩
      rw [if_neg h2]

/-- The remainder of zero is zero. -/
theorem FMath.Fmod_zero : FMath.Fmod (0 : α) 360 = 0 := by
  simp [FMath.Fmod]

/-- The zero angle is normalized. -/
theorem FRotator.NormalizeAxis_zero : FRotator.NormalizeAxis (0 : α) = 0 := by
  simp [FRotator.NormalizeAxis, FRotator.ClampAxis, FMath.Fmod_zero]

end BlinkProofs

/-- The avatar after a blink that passed the authority check and committed,
for a pawn avatar. -/
theorem UBlink.ActivateAbility_pawn {α : Type} [LinearOrderedField α] [FloorRing α]
    (M : FMath α) (BlinkDistance : α) (a : AAvatar α) (ha : a.Class.IsPawn = true) :
    (UBlink.ActivateAbility M BlinkDistance true true (some a)).Avatar =
      some ((a.SetActorRotation ⟨0, a.BaseAimRotation.Yaw, 0⟩).AddActorWorldOffset
        (((FRotator.mk 0 a.BaseAimRotation.Yaw 0).GetNormalized.Vector M).Scale
          BlinkDistance)) := by
  simp only [UBlink.ActivateAbility, ha, Bool.not_true, Bool.false_eq_true, if_false]

/-- The yaw that `FRotator::Vector` feeds to sine and cosine after
`GetNormalized` is the aim yaw up to whole turns. -/
theorem yaw_unwound (y : ℝ) :
    ∃ k : Int, FMath.Fmod (FRotator.NormalizeAxis y) 360 * (Real.pi / 180) =
      y * (Real.pi / 180) - (k : ℝ) * (2 * Real.pi) := by
  obtain ⟨k1, h1⟩ := FRotator.NormalizeAxis_eq_sub_turns y
  obtain ⟨k2, h2⟩ := FMath.Fmod_eq_sub_turns (FRotator.NormalizeAxis y)
  refine ⟨k1 + k2, ?_⟩
  rw [h2, h1]
  push_cast
  ring

/-- C9. When `UBlink::ActivateAbility` passes the authority check, commits and
has a pawn avatar with aim yaw `y` (degrees), the avatar's rotation becomes
`(0, y, 0)` and its location moves by `BlinkDistance * (cos y, sin y, 0)`:
the height is unchanged and the horizontal displacement has length
`|BlinkDistance|`, whatever the aim pitch and roll are. Scalars are exact
reals. -/
theorem blink_displacement (BlinkDistance : ℝ) (a : AAvatar ℝ) (ha : a.Class.IsPawn = true) :
    ∃ a' : AAvatar ℝ,
      (UBlink.ActivateAbility ⟨Real.sin, Real.cos, Real.pi⟩ BlinkDistance true true
        (some a)).Avatar = some a' ∧
      a'.Rotation.Pitch = 0 ∧ a'.Rotation.Yaw = a.BaseAimRotation.Yaw ∧ a'.Rotation.Roll = 0 ∧
      a'.Location.X =
        a.Location.X + BlinkDistance * Real.cos (a.BaseAimRotation.Yaw * (Real.pi / 180)) ∧
      a'.Location.Y =
        a.Location.Y + BlinkDistance * Real.sin (a.BaseAimRotation.Yaw * (Real.pi / 180)) ∧
      a'.Location.Z = a.Location.Z ∧
      Real.sqrt ((a'.Location.X - a.Location.X) ^ 2 + (a'.Location.Y - a.Location.Y) ^ 2) =
        |BlinkDistance| := by
  obtain ⟨k, hk⟩ := yaw_unwound a.BaseAimRotation.Yaw
  have hc : Real.cos (FMath.Fmod (FRotator.NormalizeAxis a.BaseAimRotation.Yaw) 360 *
      (Real.pi / 180)) = Real.cos (a.BaseAimRotation.Yaw * (Real.pi / 180)) := by
    rw [hk, Real.cos_sub_int_mul_two_pi]
  have hs : Real.sin (FMath.Fmod (FRotator.NormalizeAxis a.BaseAimRotation.Yaw) 360 *
      (Real.pi / 180)) = Real.sin (a.BaseAimRotation.Yaw * (Real.pi / 180)) := by
    rw [hk, Real.sin_sub_int_mul_two_pi]
  have hX : ∀ x c : ℝ, x + 1 * c * BlinkDistance = x + BlinkDistance * c := fun x c => by ring
  refine ⟨_, UBlink.ActivateAbility_pawn _ BlinkDistance a ha, ?_⟩
  · simp only [AAvatar.AddActorWorldOffset, AAvatar.SetActorRotation, FVector.Add, FVector.Scale,
      FRotator.Vector, FRotator.GetNormalized, FMath.DegreesToRadians,
      FRotator.NormalizeAxis_zero, FMath.Fmod_zero, zero_mul, Real.cos_zero, Real.sin_zero,
      hc, hs, hX, add_zero, true_and]
    have : (a.Location.X + BlinkDistance * Real.cos (a.BaseAimRotation.Yaw * (Real.pi / 180)) -
        a.Location.X) ^ 2 +
        (a.Location.Y + BlinkDistance * Real.sin (a.BaseAimRotation.Yaw * (Real.pi / 180)) -
          a.Location.Y) ^ 2 = BlinkDistance ^ 2 := by
      have := Real.cos_sq_add_sin_sq (a.BaseAimRotation.Yaw * (Real.pi / 180))
      nlinarith [this]
    rw [this, Real.sqrt_sq_eq_abs]

/-- Witness for C9: a hero at `(1, 2, 3)` aiming at yaw 0 with
a pitch of 40 degrees blinks 5 units along the X axis. -/
theorem blink_displacement_witness :
    ∃ a' : AAvatar ℝ,
      (UBlink.ActivateAbility ⟨Real.sin, Real.cos, Real.pi⟩ (5 : ℝ) true true
        (some { Class := EActorClass.Hero, Location := ⟨1, 2, 3⟩, Rotation := ⟨10, 20, 30⟩,
                BaseAimRotation := ⟨40, 0, 0⟩ })).Avatar = some a' ∧
      a'.Location.X = 6 ∧ a'.Location.Y = 2 ∧ a'.Location.Z = 3 := by
  obtain ⟨a', h1, _, _, _, hx, hy, hz, _⟩ := blink_displacement 5
    { Class := EActorClass.Hero, Location := ⟨1, 2, 3⟩, Rotation := ⟨10, 20, 30⟩,
      BaseAimRotation := ⟨40, 0, 0⟩ } rfl
  refine ⟨a', h1, ?_, ?_, hz⟩
  · rw [hx]; norm_num
  · rw [hy]; norm_num

/-! ## Scoreboard -/

/-- Reading a text block of an entry after one of its text blocks was set. -/
theorem UScoreboardEntry.Text_SetText (e : UScoreboardEntry) (s s' : ETextSlot) (t : FText) :
    (e.SetText s t).Text s' = if s' = s then t else e.Text s' := by
  cases s <;> cases s' <;> simp [UScoreboardEntry.SetText, UScoreboardEntry.Text]

/-- Setting a text leaves the player state pointer of the entry alone. -/
theorem UScoreboardEntry.PlayerState_SetText (e : UScoreboardEntry) (s : ETextSlot) (t : FText) :
    (e.SetText s t).PlayerState = e.PlayerState := by
  cases s <;> rfl

/-- Reading a text block of the world after a text block was set. -/
theorem FScoreboardWorld.Text_SetText_ref (w : FScoreboardWorld) (r : FTextBlockRef) (t : FText)
    (n : Nat) (s : ETextSlot) :
    ((w.SetText r t).Entries n).Text s =
      if (⟨n, s⟩ : FTextBlockRef) = r then t else (w.Entries n).Text s := by
  obtain ⟨re, rs⟩ := r
  unfold FScoreboardWorld.SetText
  by_cases hn : n = re
  · subst hn
    simp [UScoreboardEntry.Text_SetText]
  · simp [Function.update_noteq hn, hn]

/-- A broadcast changes nothing but the entries. -/
theorem FScoreboardWorld.Broadcast_frame (w : FScoreboardWorld) (L : List FTextBlockRef)
    (v : Int) :
    (w.Broadcast L v).States = w.States ∧ (w.Broadcast L v).PlayerNames = w.PlayerNames ∧
      (w.Broadcast L v).OnKill = w.OnKill ∧ (w.Broadcast L v).OnDeath = w.OnDeath ∧
      (w.Broadcast L v).OnDamage = w.OnDamage ∧ (w.Broadcast L v).OnHealing = w.OnHealing := by
  unfold FScoreboardWorld.Broadcast
  induction L generalizing w with
  | nil => simp
  | cons r rest ih =>
    rw [List.foldl_cons]
    have h := ih (w.SetText r (FText.AsNumber v))
    simpa [FScoreboardWorld.SetText] using h

/-- After a broadcast the bound text blocks show the value and every other
text block is as before. -/
theorem FScoreboardWorld.Text_Broadcast (w : FScoreboardWorld) (L : List FTextBlockRef)
    (v : Int) (n : Nat) (s : ETextSlot) :
    ((w.Broadcast L v).Entries n).Text s =
      if (⟨n, s⟩ : FTextBlockRef) ∈ L then FText.AsNumber v else (w.Entries n).Text s := by
  unfold FScoreboardWorld.Broadcast
  induction L generalizing w with
  | nil => simp
  | cons r rest ih =>
    rw [List.foldl_cons, ih, FScoreboardWorld.Text_SetText_ref]
    by_cases h1 : (⟨n, s⟩ : FTextBlockRef) ∈ rest
    · simp [h1]
    · by_cases h2 : (⟨n, s⟩ : FTextBlockRef) = r
      · simp [h2]
      · simp [h1, h2]

/-- A broadcast leaves the player state pointer of every entry alone. -/
theorem FScoreboardWorld.PlayerState_Broadcast (w : FScoreboardWorld) (L : List FTextBlockRef)
    (v : Int) (n : Nat) :
    ((w.Broadcast L v).Entries n).PlayerState = (w.Entries n).PlayerState := by
  unfold FScoreboardWorld.Broadcast
  induction L generalizing w with
  | nil => simp
  | cons r rest ih =>
    rw [List.foldl_cons, ih]
    unfold FScoreboardWorld.SetText
    by_cases hn : n = r.Entry
    · subst hn; simp [UScoreboardEntry.PlayerState_SetText]
    · simp [Function.update_noteq hn]

/-- A text block of another kind than the bound ones is not in the list. -/
theorem FScoreboardWorld.not_mem_of_slot (L : List FTextBlockRef) (s s' : ETextSlot)
    (hL : ∀ r, r ∈ L → r.Slot = s) (hs : s' ≠ s) (n : Nat) :
    (⟨n, s'⟩ : FTextBlockRef) ∉ L := by
  intro hm
  exact hs (hL _ hm)

/-- The world after a stat update `f` of the state at `p` whose new value `v`
is broadcast to the list `L` of text blocks of kind `slot`. -/
theorem FScoreboardWorld.Text_after_update (w : FScoreboardWorld) (p : Nat)
    (f : AGardumPlayerState → AGardumPlayerState) (L : List FTextBlockRef) (v : Int)
    (slot : ETextSlot) (hL : ∀ r, r ∈ L → r.Slot = slot) (n : Nat) (s : ETextSlot) :
    (((({ w with States := Function.update w.States p (f (w.States p)) } :
        FScoreboardWorld).Broadcast L v).Entries n).Text s) =
      if s = slot ∧ (⟨n, slot⟩ : FTextBlockRef) ∈ L then FText.AsNumber v
      else (w.Entries n).Text s := by
  rw [FScoreboardWorld.Text_Broadcast]
  by_cases hs : s = slot
  · subst hs; simp
  · have := FScoreboardWorld.not_mem_of_slot L slot s hL hs n
    simp [hs, this]

/-- A stat update of the tracked player state keeps the entry tracking it. -/
theorem FScoreboardWorld.Tracks_Update (w : FScoreboardWorld) (e p : Nat) (op : EStatUpdate)
    (h : w.Tracks e p) : (w.Update p op).Tracks e p := by
  obtain ⟨hwb, ⟨m1, m2, m3, m4⟩, ⟨t1, t2, t3, t4⟩⟩ := h
  have hwb' := hwb
  obtain ⟨b1, b2, b3, b4⟩ := hwb'
  have c1 : (w.Entries e).Text ETextSlot.KillsText = _ := t1
  have c2 : (w.Entries e).Text ETextSlot.DeathsText = _ := t2
  have c3 : (w.Entries e).Text ETextSlot.DamageText = _ := t3
  have c4 : (w.Entries e).Text ETextSlot.HealingText = _ := t4
  cases op with
  | AddKill =>
    have fr := FScoreboardWorld.Broadcast_frame
      { w with States := Function.update w.States p (w.States p).AddKill } (w.OnKill p)
      ((w.States p).AddKill).Kills
    have tx := FScoreboardWorld.Text_after_update w p AGardumPlayerState.AddKill (w.OnKill p)
      ((w.States p).AddKill).Kills ETextSlot.KillsText (b1 p) e
    obtain ⟨f1, f2, f3, f4, f5, f6⟩ := fr
    refine ⟨?_, ?_, ?_⟩
    · simp only [FScoreboardWorld.WellBound, FScoreboardWorld.Update, FScoreboardWorld.AddKill,
        Function.update_same, f3, f4, f5, f6]
      exact hwb
    · simp only [FScoreboardWorld.Update, FScoreboardWorld.AddKill,
        Function.update_same, f3, f4, f5, f6]
      exact ⟨m1, m2, m3, m4⟩
    · simp only [FScoreboardWorld.Update, FScoreboardWorld.AddKill, Function.update_same, f1]
      refine ⟨?_, ?_, ?_, ?_⟩
      · have := tx ETextSlot.KillsText
        simpa [m1, AGardumPlayerState.GetKills] using this
      · have := tx ETextSlot.DeathsText
        simpa [c2, AGardumPlayerState.GetDeaths, AGardumPlayerState.AddKill] using this
      · have := tx ETextSlot.DamageText
        simpa [c3, AGardumPlayerState.GetDamage, AGardumPlayerState.AddKill] using this
      · have := tx ETextSlot.HealingText
        simpa [c4, AGardumPlayerState.GetHealing, AGardumPlayerState.AddKill] using this
  | AddDeath =>
    have fr := FScoreboardWorld.Broadcast_frame
      { w with States := Function.update w.States p ((w.States p).AddDeath) } (w.OnDeath p)
      (((w.States p).AddDeath).Deaths : Nat)
    have tx := FScoreboardWorld.Text_after_update w p (fun t => t.AddDeath) (w.OnDeath p)
      (((w.States p).AddDeath).Deaths : Nat) ETextSlot.DeathsText (b2 p) e
    obtain ⟨f1, f2, f3, f4, f5, f6⟩ := fr
    refine ⟨?_, ?_, ?_⟩
    · simp only [FScoreboardWorld.WellBound, FScoreboardWorld.Update, FScoreboardWorld.AddDeath,
        Function.update_same, f3, f4, f5, f6]
      exact hwb
    · simp only [FScoreboardWorld.Update, FScoreboardWorld.AddDeath,
        Function.update_same, f3, f4, f5, f6]
      exact ⟨m1, m2, m3, m4⟩
    · simp only [FScoreboardWorld.Update, FScoreboardWorld.AddDeath, Function.update_same, f1]
      refine ⟨?_, ?_, ?_, ?_⟩
      · have := tx ETextSlot.KillsText
        simpa [c1, AGardumPlayerState.GetKills, AGardumPlayerState.AddDeath] using this
      · have := tx ETextSlot.DeathsText
        simpa [m2, AGardumPlayerState.GetDeaths] using this
      · have := tx ETextSlot.DamageText
        simpa [c3, AGardumPlayerState.GetDamage, AGardumPlayerState.AddDeath] using this
      · have := tx ETextSlot.HealingText
        simpa [c4, AGardumPlayerState.GetHealing, AGardumPlayerState.AddDeath] using this
  | AddDamage v =>
    have fr := FScoreboardWorld.Broadcast_frame
      { w with States := Function.update w.States p ((w.States p).AddDamage v) } (w.OnDamage p)
      (((w.States p).AddDamage v).Damage : Nat)
    have tx := FScoreboardWorld.Text_after_update w p (fun t => t.AddDamage v) (w.OnDamage p)
      (((w.States p).AddDamage v).Damage : Nat) ETextSlot.DamageText (b3 p) e
    obtain ⟨f1, f2, f3, f4, f5, f6⟩ := fr
    refine ⟨?_, ?_, ?_⟩
    · simp only [FScoreboardWorld.WellBound, FScoreboardWorld.Update, FScoreboardWorld.AddDamage,
        Function.update_same, f3, f4, f5, f6]
      exact hwb
    · simp only [FScoreboardWorld.Update, FScoreboardWorld.AddDamage,
        Function.update_same, f3, f4, f5, f6]
      exact ⟨m1, m2, m3, m4⟩
    · simp only [FScoreboardWorld.Update, FScoreboardWorld.AddDamage, Function.update_same, f1]
      refine ⟨?_, ?_, ?_, ?_⟩
      · have := tx ETextSlot.KillsText
        simpa [c1, AGardumPlayerState.GetKills, AGardumPlayerState.AddDamage] using this
      · have := tx ETextSlot.DeathsText
        simpa [c2, AGardumPlayerState.GetDeaths, AGardumPlayerState.AddDamage] using this
      · have := tx ETextSlot.DamageText
        simpa [m3, AGardumPlayerState.GetDamage] using this
      · have := tx ETextSlot.HealingText
        simpa [c4, AGardumPlayerState.GetHealing, AGardumPlayerState.AddDamage] using this
  | AddHealing v =>
    have fr := FScoreboardWorld.Broadcast_frame
      { w with States := Function.update w.States p ((w.States p).AddHealing v) } (w.OnHealing p)
      (((w.States p).AddHealing v).Healing : Nat)
    have tx := FScoreboardWorld.Text_after_update w p (fun t => t.AddHealing v) (w.OnHealing p)
      (((w.States p).AddHealing v).Healing : Nat) ETextSlot.HealingText (b4 p) e
    obtain ⟨f1, f2, f3, f4, f5, f6⟩ := fr
    refine ⟨?_, ?_, ?_⟩
    · simp only [FScoreboardWorld.WellBound, FScoreboardWorld.Update, FScoreboardWorld.AddHealing,
        Function.update_same, f3, f4, f5, f6]
      exact hwb
    · simp only [FScoreboardWorld.Update, FScoreboardWorld.AddHealing,
        Function.update_same, f3, f4, f5, f6]
      exact ⟨m1, m2, m3, m4⟩
    · simp only [FScoreboardWorld.Update, FScoreboardWorld.AddHealing, Function.update_same, f1]
      refine ⟨?_, ?_, ?_, ?_⟩
      · have := tx ETextSlot.KillsText
        simpa [c1, AGardumPlayerState.GetKills, AGardumPlayerState.AddHealing] using this
      · have := tx ETextSlot.DeathsText
        simpa [c2, AGardumPlayerState.GetDeaths, AGardumPlayerState.AddHealing] using this
      · have := tx ETextSlot.DamageText
        simpa [c3, AGardumPlayerState.GetDamage, AGardumPlayerState.AddHealing] using this
      · have := tx ETextSlot.HealingText
        simpa [m4, AGardumPlayerState.GetHealing] using this

/-- Removing the bindings of an object keeps the remaining ones. -/
theorem FScoreboardWorld.mem_RemoveAll (L : List FTextBlockRef) (u r : FTextBlockRef) :
    r ∈ FScoreboardWorld.RemoveAll L u ↔ r ∈ L ∧ r ≠ u := by
  simp [FScoreboardWorld.RemoveAll, List.mem_filter]

/-- The delegate lists after `NativeOnListItemObjectSet` unbound the old
player state: step one of the function, as a world. -/
theorem FScoreboardWorld.WellBound_update (w : FScoreboardWorld) (hw : w.WellBound)
    (K D Dm H : Nat → List FTextBlockRef)
    (hK : ∀ p r, r ∈ K p → r ∈ w.OnKill p ∨ r.Slot = ETextSlot.KillsText)
    (hD : ∀ p r, r ∈ D p → r ∈ w.OnDeath p ∨ r.Slot = ETextSlot.DeathsText)
    (hDm : ∀ p r, r ∈ Dm p → r ∈ w.OnDamage p ∨ r.Slot = ETextSlot.DamageText)
    (hH : ∀ p r, r ∈ H p → r ∈ w.OnHealing p ∨ r.Slot = ETextSlot.HealingText)
    (S : World) (N : Nat → String) (E : Nat → UScoreboardEntry) :
    FScoreboardWorld.WellBound
      { States := S, PlayerNames := N, Entries := E, OnKill := K, OnDeath := D,
        OnDamage := Dm, OnHealing := H } := by
  obtain ⟨b1, b2, b3, b4⟩ := hw
  refine ⟨fun p r hr => ?_, fun p r hr => ?_, fun p r hr => ?_, fun p r hr => ?_⟩
  · exact (hK p r hr).elim (b1 p r) id
  · exact (hD p r hr).elim (b2 p r) id
  · exact (hDm p r hr).elim (b3 p r) id
  · exact (hH p r hr).elim (b4 p r) id

/-- Membership in a delegate list that was rewritten at one player state. -/
theorem FScoreboardWorld.mem_update_append (F : Nat → List FTextBlockRef) (P p : Nat)
    (x r : FTextBlockRef) :
    r ∈ Function.update F P (F P ++ [x]) p ↔ r ∈ F p ∨ (p = P ∧ r = x) := by
  by_cases h : p = P
  · subst h; simp
  · simp [Function.update_noteq h, h]

/-- Membership in a delegate list from which an object was unbound at one
player state. -/
theorem FScoreboardWorld.mem_update_RemoveAll (F : Nat → List FTextBlockRef) (P p : Nat)
    (u r : FTextBlockRef) :
    r ∈ Function.update F P (FScoreboardWorld.RemoveAll (F P) u) p ↔
      r ∈ F p ∧ (p = P → r ≠ u) := by
  by_cases h : p = P
  · subst h; simp [FScoreboardWorld.mem_RemoveAll]
  · simp [Function.update_noteq h, h]

/-- Binding an entry to a player state makes the entry track it. -/
theorem FScoreboardWorld.Tracks_bind (w : FScoreboardWorld) (hw : w.WellBound) (e : Nat)
    (P : UObject) (hP : P.IsGardumPlayerState = true) :
    (UScoreboardEntry.NativeOnListItemObjectSet e (some P) w).Tracks e P.Id := by
  have hc : CastGardumPlayerState P = some P.Id := by simp [CastGardumPlayerState, hP]
  unfold UScoreboardEntry.NativeOnListItemObjectSet
  simp only [hc]
  cases hold : (w.Entries e).PlayerState with
  | none =>
    refine ⟨?_, ?_, ?_⟩
    · apply FScoreboardWorld.WellBound_update w hw <;> intro p r hr <;>
        simp only [FScoreboardWorld.SetText, FScoreboardWorld.mem_update_append] at hr <;>
        rcases hr with hr | ⟨_, hr⟩ <;> simp [hr]
    · simp [FScoreboardWorld.SetText]
    · simp [FScoreboardWorld.SetText, UScoreboardEntry.SetText]
  | some Old =>
    refine ⟨?_, ?_, ?_⟩
    · apply FScoreboardWorld.WellBound_update w hw <;> intro p r hr <;>
        simp only [FScoreboardWorld.SetText, FScoreboardWorld.mem_update_append,
          FScoreboardWorld.mem_update_RemoveAll] at hr <;>
        rcases hr with ⟨hr, _⟩ | ⟨_, hr⟩ <;> simp [hr]
    · simp [FScoreboardWorld.SetText]
    · simp [FScoreboardWorld.SetText, UScoreboardEntry.SetText]

/-- A run of stat updates of the tracked player state keeps the entry tracking
it. -/
theorem FScoreboardWorld.Tracks_Updates (w : FScoreboardWorld) (e p : Nat)
    (ops : List EStatUpdate) (h : w.Tracks e p) : (w.Updates p ops).Tracks e p := by
  unfold FScoreboardWorld.Updates
  induction ops generalizing w with
  | nil => simpa using h
  | cons op rest ih =>
    rw [List.foldl_cons]
    exact ih _ (FScoreboardWorld.Tracks_Update w e p op h)

/-- C11. After `NativeOnListItemObjectSet` binds the entry at `e` to a player
state `P`, and after any sequence of `AddKill`, `AddDeath`, `AddDamage` and
`AddHealing` on `P` (each broadcasting its new value on the matching delegate),
the kills, deaths, damage and healing texts of the entry are the number
formatting of `GetKills`, `GetDeaths`, `GetDamage` and `GetHealing` of `P`.
The delegate lists of the world are well bound, as they are in every world the
code can produce. -/
theorem scoreboard_entry_tracks_stats (w : FScoreboardWorld) (hw : w.WellBound)
    (e : Nat) (P : UObject) (hP : P.IsGardumPlayerState = true) (ops : List EStatUpdate) :
    let w' := (UScoreboardEntry.NativeOnListItemObjectSet e (some P) w).Updates P.Id ops
    (w'.Entries e).KillsText = FText.AsNumber (w'.States P.Id).GetKills ∧
      (w'.Entries e).DeathsText = FText.AsNumber (w'.States P.Id).GetDeaths ∧
      (w'.Entries e).DamageText = FText.AsNumber (w'.States P.Id).GetDamage ∧
      (w'.Entries e).HealingText = FText.AsNumber (w'.States P.Id).GetHealing := by
  intro w'
  exact (FScoreboardWorld.Tracks_Updates _ e P.Id ops
    (FScoreboardWorld.Tracks_bind w hw e P hP)).2.2

/-- Witness for C11: an entry bound to the player state at address 1 in a
fresh world shows one kill, one death and 30 points of damage after the three
updates. -/
theorem scoreboard_entry_tracks_stats_witness :
    (FScoreboardWorld.init (fun _ => "")).WellBound ∧
      ((((UScoreboardEntry.NativeOnListItemObjectSet 0 (some ⟨1, true⟩)
        (FScoreboardWorld.init (fun _ => ""))).Updates 1
          [EStatUpdate.AddKill, EStatUpdate.AddDamage 30, EStatUpdate.AddDeath]).Entries
            0).KillsText = FText.AsNumber 1) := by
  have hw : (FScoreboardWorld.init (fun _ => "")).WellBound := by
    simp [FScoreboardWorld.WellBound, FScoreboardWorld.init]
  have h := scoreboard_entry_tracks_stats (FScoreboardWorld.init (fun _ => "")) hw 0 ⟨1, true⟩ rfl
    [EStatUpdate.AddKill, EStatUpdate.AddDamage 30, EStatUpdate.AddDeath]
  refine ⟨hw, ?_⟩
  rw [h.1]
  rfl

/-- Two entries with the same texts and the same player state are equal. -/
theorem UScoreboardEntry.ext_Text (a b : UScoreboardEntry) (ht : ∀ s, a.Text s = b.Text s)
    (hp : a.PlayerState = b.PlayerState) : a = b := by
  have h1 := ht ETextSlot.PlayerText
  have h2 := ht ETextSlot.KillsText
  have h3 := ht ETextSlot.DeathsText
  have h4 := ht ETextSlot.DamageText
  have h5 := ht ETextSlot.HealingText
  cases a; cases b
  simp [UScoreboardEntry.Text] at h1 h2 h3 h4 h5 hp
  simp [h1, h2, h3, h4, h5, hp]

/-- A broadcast to text blocks of other entries leaves the entry alone. -/
theorem FScoreboardWorld.Entries_Broadcast_of_unbound (w : FScoreboardWorld)
    (L : List FTextBlockRef) (v : Int) (e : Nat) (hL : ∀ r, r ∈ L → r.Entry ≠ e) :
    (w.Broadcast L v).Entries e = w.Entries e := by
  apply UScoreboardEntry.ext_Text
  · intro s
    rw [FScoreboardWorld.Text_Broadcast]
    have : (⟨e, s⟩ : FTextBlockRef) ∉ L := fun hm => hL _ hm rfl
    simp [this]
  · exact FScoreboardWorld.PlayerState_Broadcast w L v e

/-- A stat update of a player state the entry is not bound to leaves the entry
alone, and the entry stays unbound. -/
theorem FScoreboardWorld.Unbound_Update (w : FScoreboardWorld) (e p : Nat) (op : EStatUpdate)
    (h : w.Unbound e p) :
    (w.Update p op).Entries e = w.Entries e ∧ (w.Update p op).Unbound e p := by
  obtain ⟨u1, u2, u3, u4⟩ := h
  cases op with
  | AddKill =>
    obtain ⟨_, _, f3, f4, f5, f6⟩ := FScoreboardWorld.Broadcast_frame
      { w with States := Function.update w.States p (w.States p).AddKill } (w.OnKill p)
      ((w.States p).AddKill).Kills
    constructor
    · simpa [FScoreboardWorld.Update, FScoreboardWorld.AddKill] using
        FScoreboardWorld.Entries_Broadcast_of_unbound
          { w with States := Function.update w.States p (w.States p).AddKill } (w.OnKill p)
          ((w.States p).AddKill).Kills e u1
    · simp only [FScoreboardWorld.Unbound, FScoreboardWorld.Update, FScoreboardWorld.AddKill,
        Function.update_same, f3, f4, f5, f6]
      exact ⟨u1, u2, u3, u4⟩
  | AddDeath =>
    obtain ⟨_, _, f3, f4, f5, f6⟩ := FScoreboardWorld.Broadcast_frame
      { w with States := Function.update w.States p (w.States p).AddDeath } (w.OnDeath p)
      (((w.States p).AddDeath).Deaths : Nat)
    constructor
    · simpa [FScoreboardWorld.Update, FScoreboardWorld.AddDeath] using
        FScoreboardWorld.Entries_Broadcast_of_unbound
          { w with States := Function.update w.States p (w.States p).AddDeath } (w.OnDeath p)
          (((w.States p).AddDeath).Deaths : Nat) e u2
    · simp only [FScoreboardWorld.Unbound, FScoreboardWorld.Update, FScoreboardWorld.AddDeath,
        Function.update_same, f3, f4, f5, f6]
      exact ⟨u1, u2, u3, u4⟩
  | AddDamage v =>
    obtain ⟨_, _, f3, f4, f5, f6⟩ := FScoreboardWorld.Broadcast_frame
      { w with States := Function.update w.States p ((w.States p).AddDamage v) } (w.OnDamage p)
      (((w.States p).AddDamage v).Damage : Nat)
    constructor
    · simpa [FScoreboardWorld.Update, FScoreboardWorld.AddDamage] using
        FScoreboardWorld.Entries_Broadcast_of_unbound
          { w with States := Function.update w.States p ((w.States p).AddDamage v) }
          (w.OnDamage p) (((w.States p).AddDamage v).Damage : Nat) e u3
    · simp only [FScoreboardWorld.Unbound, FScoreboardWorld.Update, FScoreboardWorld.AddDamage,
        Function.update_same, f3, f4, f5, f6]
      exact ⟨u1, u2, u3, u4⟩
  | AddHealing v =>
    obtain ⟨_, _, f3, f4, f5, f6⟩ := FScoreboardWorld.Broadcast_frame
      { w with States := Function.update w.States p ((w.States p).AddHealing v) }
      (w.OnHealing p) (((w.States p).AddHealing v).Healing : Nat)
    constructor
    · simpa [FScoreboardWorld.Update, FScoreboardWorld.AddHealing] using
        FScoreboardWorld.Entries_Broadcast_of_unbound
          { w with States := Function.update w.States p ((w.States p).AddHealing v) }
          (w.OnHealing p) (((w.States p).AddHealing v).Healing : Nat) e u4
    · simp only [FScoreboardWorld.Unbound, FScoreboardWorld.Update, FScoreboardWorld.AddHealing,
        Function.update_same, f3, f4, f5, f6]
      exact ⟨u1, u2, u3, u4⟩

/-- A run of stat updates of a player state the entry is not bound to leaves
the entry alone. -/
theorem FScoreboardWorld.Unbound_Updates (w : FScoreboardWorld) (e p : Nat)
    (ops : List EStatUpdate) (h : w.Unbound e p) :
    (w.Updates p ops).Entries e = w.Entries e := by
  unfold FScoreboardWorld.Updates
  induction ops generalizing w with
  | nil => rfl
  | cons op rest ih =>
    rw [List.foldl_cons]
    obtain ⟨h1, h2⟩ := FScoreboardWorld.Unbound_Update w e p op h
    rw [ih _ h2, h1]

/-- A text block in a well-bound list that is not the block of that kind of the
entry `e` belongs to another entry. -/
theorem FScoreboardWorld.entry_ne (r : FTextBlockRef) (e : Nat) (s : ETextSlot)
    (hs : r.Slot = s) (hne : r ≠ ⟨e, s⟩) : r.Entry ≠ e := by
  intro h
  apply hne
  cases r
  simp_all

/-- Rebinding an entry from the player state at `P` to another one leaves no
text block of the entry bound to a delegate of `P`. -/
theorem FScoreboardWorld.Unbound_rebind (w : FScoreboardWorld) (hw : w.WellBound) (e P : Nat)
    (hold : (w.Entries e).PlayerState = some P) (Q : UObject)
    (hQ : Q.IsGardumPlayerState = true) (hne : Q.Id ≠ P) :
    (UScoreboardEntry.NativeOnListItemObjectSet e (some Q) w).Unbound e P := by
  have hc : CastGardumPlayerState Q = some Q.Id := by simp [CastGardumPlayerState, hQ]
  have hne' : P ≠ Q.Id := fun h => hne h.symm
  obtain ⟨b1, b2, b3, b4⟩ := hw
  unfold UScoreboardEntry.NativeOnListItemObjectSet
  simp only [hc, hold]
  refine ⟨fun r hr => ?_, fun r hr => ?_, fun r hr => ?_, fun r hr => ?_⟩ <;>
    simp only [FScoreboardWorld.SetText, FScoreboardWorld.mem_update_append,
      FScoreboardWorld.mem_update_RemoveAll] at hr <;>
    rcases hr with ⟨hr, hx⟩ | ⟨hx, _⟩
  · exact FScoreboardWorld.entry_ne r e _ (b1 P r hr) (hx trivial)
  · exact absurd hx hne'
  · exact FScoreboardWorld.entry_ne r e _ (b2 P r hr) (hx trivial)
  · exact absurd hx hne'
  · exact FScoreboardWorld.entry_ne r e _ (b3 P r hr) (hx trivial)
  · exact absurd hx hne'
  · exact FScoreboardWorld.entry_ne r e _ (b4 P r hr) (hx trivial)
  · exact absurd hx hne'

/-- C12. When the entry at `e`, bound to the player state at `P`, is passed a
different player state `Q`, its texts show the name and the stats of `Q`, and
every later sequence of stat updates of `P` leaves the entry as it is. The
delegate lists of the world are well bound, as they are in every world the code
can produce. -/
theorem scoreboard_entry_rebind_unbinds_old (w : FScoreboardWorld) (hw : w.WellBound) (e P : Nat)
    (hold : (w.Entries e).PlayerState = some P) (Q : UObject)
    (hQ : Q.IsGardumPlayerState = true) (hne : Q.Id ≠ P) (ops : List EStatUpdate) :
    let w1 := UScoreboardEntry.NativeOnListItemObjectSet e (some Q) w
    ((w1.Entries e).PlayerText = FText.FromString (w.PlayerNames Q.Id) ∧
      (w1.Entries e).KillsText = FText.AsNumber (w.States Q.Id).GetKills ∧
      (w1.Entries e).DeathsText = FText.AsNumber (w.States Q.Id).GetDeaths ∧
      (w1.Entries e).DamageText = FText.AsNumber (w.States Q.Id).GetDamage ∧
      (w1.Entries e).HealingText = FText.AsNumber (w.States Q.Id).GetHealing) ∧
    (w1.Updates P ops).Entries e = w1.Entries e := by
  intro w1
  have hc : CastGardumPlayerState Q = some Q.Id := by simp [CastGardumPlayerState, hQ]
  refine ⟨?_, FScoreboardWorld.Unbound_Updates w1 e P ops
    (FScoreboardWorld.Unbound_rebind w hw e P hold Q hQ hne)⟩
  simp only [w1]
  unfold UScoreboardEntry.NativeOnListItemObjectSet
  simp only [hc, hold]
  simp [FScoreboardWorld.SetText, UScoreboardEntry.SetText]

/-- Witness for C12: the entry at 0, bound to the player state at 1 and then
rebound to the one at 2, still shows the zero kills of the latter after a kill
was added to the former. -/
theorem scoreboard_entry_rebind_unbinds_old_witness :
    ((UScoreboardEntry.NativeOnListItemObjectSet 0 (some ⟨1, true⟩)
        (FScoreboardWorld.init (fun _ => ""))).Entries 0).PlayerState = some 1 ∧
      ((((UScoreboardEntry.NativeOnListItemObjectSet 0 (some ⟨2, true⟩)
        (UScoreboardEntry.NativeOnListItemObjectSet 0 (some ⟨1, true⟩)
          (FScoreboardWorld.init (fun _ => "")))).Updates 1 [EStatUpdate.AddKill]).Entries
            0).KillsText = FText.AsNumber 0) := by
  have hw0 : (FScoreboardWorld.init (fun _ => "")).WellBound := by
    simp [FScoreboardWorld.WellBound, FScoreboardWorld.init]
  have hw := (FScoreboardWorld.Tracks_bind _ hw0 0 ⟨1, true⟩ rfl).1
  have h := scoreboard_entry_rebind_unbinds_old _ hw 0 1 rfl ⟨2, true⟩ rfl (by decide) [EStatUpdate.AddKill]
  refine ⟨rfl, ?_⟩
  rw [h.2, h.1.2.1]
  rfl

/-- A stat update keeps the delegate lists well bound. -/
theorem FScoreboardWorld.WellBound_Update (w : FScoreboardWorld) (p : Nat) (op : EStatUpdate)
    (hw : w.WellBound) : (w.Update p op).WellBound := by
  cases op with
  | AddKill =>
    obtain ⟨_, _, f3, f4, f5, f6⟩ := FScoreboardWorld.Broadcast_frame
      { w with States := Function.update w.States p (w.States p).AddKill } (w.OnKill p)
      ((w.States p).AddKill).Kills
    simp only [FScoreboardWorld.WellBound, FScoreboardWorld.Update, FScoreboardWorld.AddKill,
      Function.update_same, f3, f4, f5, f6]
    exact hw
  | AddDeath =>
    obtain ⟨_, _, f3, f4, f5, f6⟩ := FScoreboardWorld.Broadcast_frame
      { w with States := Function.update w.States p (w.States p).AddDeath } (w.OnDeath p)
      (((w.States p).AddDeath).Deaths : Nat)
    simp only [FScoreboardWorld.WellBound, FScoreboardWorld.Update, FScoreboardWorld.AddDeath,
      Function.update_same, f3, f4, f5, f6]
    exact hw
  | AddDamage v =>
    obtain ⟨_, _, f3, f4, f5, f6⟩ := FScoreboardWorld.Broadcast_frame
      { w with States := Function.update w.States p ((w.States p).AddDamage v) } (w.OnDamage p)
      (((w.States p).AddDamage v).Damage : Nat)
    simp only [FScoreboardWorld.WellBound, FScoreboardWorld.Update, FScoreboardWorld.AddDamage,
      Function.update_same, f3, f4, f5, f6]
    exact hw
  | AddHealing v =>
    obtain ⟨_, _, f3, f4, f5, f6⟩ := FScoreboardWorld.Broadcast_frame
      { w with States := Function.update w.States p ((w.States p).AddHealing v) }
      (w.OnHealing p) (((w.States p).AddHealing v).Healing : Nat)
    simp only [FScoreboardWorld.WellBound, FScoreboardWorld.Update, FScoreboardWorld.AddHealing,
      Function.update_same, f3, f4, f5, f6]
    exact hw

/-- `NativeOnListItemObjectSet` keeps the delegate lists well bound, whatever
object it is given. -/
theorem FScoreboardWorld.WellBound_bind (w : FScoreboardWorld) (hw : w.WellBound) (e : Nat)
    (o : Option UObject) : (UScoreboardEntry.NativeOnListItemObjectSet e o w).WellBound := by
  cases o with
  | none => exact hw
  | some O =>
    by_cases hO : O.IsGardumPlayerState = true
    · exact (FScoreboardWorld.Tracks_bind w hw e O hO).1
    · have hc : CastGardumPlayerState O = none := by simp [CastGardumPlayerState, hO]
      unfold UScoreboardEntry.NativeOnListItemObjectSet
      simp only [hc]
      cases hold : (w.Entries e).PlayerState with
      | none => exact hw
      | some Old =>
        apply FScoreboardWorld.WellBound_update w hw <;> intro p r hr <;>
          simp only [FScoreboardWorld.mem_update_RemoveAll] at hr <;>
          exact Or.inl hr.1

/-- Every world the code can produce has well-bound delegate lists. -/
theorem FScoreboardWorld.WellBound_of_Reachable (w : FScoreboardWorld) (h : w.Reachable) :
    w.WellBound := by
  induction h with
  | start w hK hD hDm hH => simp [FScoreboardWorld.WellBound, hK, hD, hDm, hH]
  | bind w e o _ ih => exact FScoreboardWorld.WellBound_bind w ih e o
  | update w p op _ ih => exact FScoreboardWorld.WellBound_Update w p op ih


/-! ## Attribute bar -/

/-- C13, the code at the failing input. The bar at 0 is connected with
`SetAttribute(S1, 0)` and then with `SetAttribute(S2, 1)`, for `S2` another
ability system and for `S2` null: in both cases the bar is still bound to the
delegate of attribute 0 of `S1`, because the cleanup unbinds it from the delegate
of the new attribute 1. -/
theorem attribute_bar_stale_subscription :
    EAttributeListener.AttributeBar 0 ∈
        (((UAttributeBar.SetAttribute 0 (some 2) 1
          (UAttributeBar.SetAttribute 0 (some 1) 0 (FHUDWorld.init 100 100))).Systems
            1).AttributeValueChangeDelegate 0) ∧
      EAttributeListener.AttributeBar 0 ∈
        (((UAttributeBar.SetAttribute 0 none 1
          (UAttributeBar.SetAttribute 0 (some 1) 0 (FHUDWorld.init 100 100))).Systems
            1).AttributeValueChangeDelegate 0) := by
  constructor <;>
    simp [UAttributeBar.SetAttribute, FHUDWorld.init, UAbilitySystemComponent.init,
      UAbilitySystemComponent.RemoveAll, UAbilitySystemComponent.AddUObject,
      UAttributeBar.SetPercent, Function.update]

/-- Unbinding an object leaves the attribute values of the ability system
alone. -/
theorem UAbilitySystemComponent.values_RemoveAll (s : UAbilitySystemComponent) (A : Nat)
    (u : EAttributeListener) :
    (s.RemoveAll A u).NumericAttribute = s.NumericAttribute ∧
      (s.RemoveAll A u).NumericAttributeBase = s.NumericAttributeBase :=
  ⟨rfl, rfl⟩

/-- The percent of a bar right after `SetAttribute` connected it. -/
theorem UAttributeBar.Percent_SetAttribute (w : FHUDWorld) (bar S A : Nat) :
    ((UAttributeBar.SetAttribute bar (some S) A w).Bars bar).Percent =
      FloatDiv ((w.Systems S).NumericAttribute A) ((w.Systems S).NumericAttributeBase A) := by
  unfold UAttributeBar.SetAttribute
  cases hold : (w.Bars bar).AbilitySystem with
  | none => simp [UAttributeBar.SetPercent]
  | some Old =>
    by_cases h : S = Old
    · subst h
      simp [UAttributeBar.SetPercent, UAbilitySystemComponent.RemoveAll]
    · simp [UAttributeBar.SetPercent, Function.update_noteq h]

/-- Along a chained sequence of events with positive values a bar that shows
`Current / Base` keeps showing the current value over `Base`. -/
theorem UAttributeBar.Percent_OnAttributeChanges (b : UAttributeBar) (Current Base : ℚ)
    (vs : List ℚ) (hc : 0 < Current) (hvs : ∀ v, v ∈ vs → 0 < v)
    (hp : b.Percent = some (Current / Base)) :
    (b.OnAttributeChanges Current vs).Percent =
      some ((Current :: vs).getLast (List.cons_ne_nil _ _) / Base) := by
  induction vs generalizing b Current with
  | nil => simpa [UAttributeBar.OnAttributeChanges] using hp
  | cons v rest ih =>
    have hv : 0 < v := hvs v (List.mem_cons_self _ _)
    have hstep : (b.OnAttributeChanged
        { NewValue := v, OldValue := Current, Instigator := none }).Percent =
        some (v / Base) := by
      have hne : Current ≠ 0 := ne_of_gt hc
      simp only [UAttributeBar.OnAttributeChanged, not_lt.mpr (le_of_lt hv), if_false,
        UAttributeBar.SetPercent, hp, FloatDiv, hne]
      congr 1
      by_cases hB : Base = 0
      · simp [hB]
      · field_simp
        ring
    have := ih _ v hv (fun u hu => hvs u (List.mem_cons_of_mem _ hu)) hstep
    simpa [UAttributeBar.OnAttributeChanges, List.getLast_cons_cons] using this

/-- C17. After `SetAttribute` on an ability system whose attribute has a
current value `v0 > 0` and a base value `b > 0`, the percent of the bar is
`v0 / b`, and after any chained sequence of change events with positive values
it is the current value divided by `b`. -/
theorem health_bar_percent_positive_chain (w : FHUDWorld) (bar S A : Nat) (vs : List ℚ)
    (hv0 : 0 < (w.Systems S).NumericAttribute A)
    (hb : 0 < (w.Systems S).NumericAttributeBase A) (hvs : ∀ v, v ∈ vs → 0 < v) :
    ((UAttributeBar.SetAttribute bar (some S) A w).Bars bar).Percent =
        some ((w.Systems S).NumericAttribute A / (w.Systems S).NumericAttributeBase A) ∧
      ((((UAttributeBar.SetAttribute bar (some S) A w).Bars bar).OnAttributeChanges
        ((w.Systems S).NumericAttribute A) vs).Percent =
          some ((((w.Systems S).NumericAttribute A) :: vs).getLast (List.cons_ne_nil _ _) /
            (w.Systems S).NumericAttributeBase A)) := by
  have h0 : ((UAttributeBar.SetAttribute bar (some S) A w).Bars bar).Percent =
      some ((w.Systems S).NumericAttribute A / (w.Systems S).NumericAttributeBase A) := by
    rw [UAttributeBar.Percent_SetAttribute]
    simp [FloatDiv, ne_of_gt hb]
  exact ⟨h0, UAttributeBar.Percent_OnAttributeChanges _ _ _ vs hv0 hvs h0⟩

/-- Witness for C17: health 100 of a base of 200, then 50, then 150: the bar
ends at 150 / 200. -/
theorem health_bar_percent_positive_chain_witness :
    (((UAttributeBar.SetAttribute 0 (some 1) 0 (FHUDWorld.init 100 200)).Bars
      0).OnAttributeChanges 100 [50, 150]).Percent = some (3 / 4) := by
  have h := health_bar_percent_positive_chain (FHUDWorld.init 100 200) 0 1 0 [50, 150]
    (by norm_num [FHUDWorld.init, UAbilitySystemComponent.init])
    (by norm_num [FHUDWorld.init, UAbilitySystemComponent.init])
    (by intro v hv; simp at hv; rcases hv with rfl | rfl <;> norm_num)
  have e1 : ((FHUDWorld.init 100 200).Systems 1).NumericAttribute 0 = 100 := rfl
  have e2 : ((FHUDWorld.init 100 200).Systems 1).NumericAttributeBase 0 = 200 := rfl
  rw [e1, e2] at h
  rw [h.2]
  norm_num


/-! ## Ability icons -/

/-- C15. A tick of an ability icon with an ability set puts the cooldown bar at
0 when `CooldownDuration` is 0 and at `TimeRemaining / CooldownDuration`
otherwise, a finite number in both cases (no division by zero); for
`0 ≤ t ≤ d` the percent lies in `[0, 1]`; and a tick of an icon with no ability
set changes nothing. -/
theorem cooldown_percent_guarded (icon : UAbilityIcon) (Spec : FGameplayAbilitySpec)
    (TimeRemaining CooldownDuration t d : ℚ) (h0 : 0 ≤ t) (h1 : t ≤ d) :
    ({ icon with AbilitySpec := some Spec }.NativeTick TimeRemaining CooldownDuration).Cooldown =
        some (if CooldownDuration = 0 then 0 else TimeRemaining / CooldownDuration) ∧
      (∃ q : ℚ, ({ icon with AbilitySpec := some Spec }.NativeTick t d).Cooldown = some q ∧
        0 ≤ q ∧ q ≤ 1) ∧
      { icon with AbilitySpec := none }.NativeTick TimeRemaining CooldownDuration =
        { icon with AbilitySpec := none } := by
  have key : ∀ a b : ℚ, ({ icon with AbilitySpec := some Spec }.NativeTick a b).Cooldown =
      some (if b = 0 then 0 else a / b) := by
    intro a b
    by_cases hb : b = 0 <;>
      by_cases hr : castInt32 (FMath.RoundFromZero a) = 0 <;>
      simp [UAbilityIcon.NativeTick, FloatDiv, hb, hr]
  refine ⟨key _ _, ⟨_, key t d, ?_, ?_⟩, rfl⟩
  · by_cases hd : d = 0
    · simp [hd]
    · simp only [hd, if_false]
      exact div_nonneg h0 (le_trans h0 h1)
  · by_cases hd : d = 0
    · simp [hd]
    · simp only [hd, if_false]
      have hd' : 0 < d := lt_of_le_of_ne (le_trans h0 h1) (Ne.symm hd)
      exact (div_le_one hd').mpr h1

/-- Witness for C15: one second left of a cooldown of four. -/
theorem cooldown_percent_guarded_witness :
    (0 : ℚ) ≤ 1 ∧ (1 : ℚ) ≤ 4 ∧
      ({ UAbilityIcon.init with AbilitySpec := some ⟨7, 1, 0⟩ }.NativeTick 1 4).Cooldown =
        some (1 / 4) := by
  have h := cooldown_percent_guarded UAbilityIcon.init ⟨7, 1, 0⟩ 1 4 1 4 (by norm_num) (by norm_num)
  refine ⟨by norm_num, by norm_num, ?_⟩
  have h1 := h.1
  norm_num at h1
  simpa [UAbilityIcon.init] using h1

/-- A value in the range of `int` is not changed by the conversion to 32
bits. -/
theorem wrapInt32_of_range (n : Int) (h0 : -2 ^ 31 ≤ n) (h1 : n ≤ 2 ^ 31 - 1) :
    wrapInt32 n = n := by
  unfold wrapInt32
  rw [Int.emod_eq_of_lt (by omega) (by omega)]
  omega

/-- The rounded time of a tick for a non-negative remaining time that fits
`int`: its ceiling. -/
theorem RoundedTime_of_nonneg (t : ℚ) (h0 : 0 ≤ t) (h1 : t ≤ 2 ^ 31 - 1) :
    castInt32 (FMath.RoundFromZero t) = Int.ceil t := by
  have hc0 : (0 : Int) ≤ Int.ceil t := Int.ceil_nonneg h0
  have hc1 : Int.ceil t ≤ 2 ^ 31 - 1 := by
    rw [Int.ceil_le]
    calc t ≤ 2 ^ 31 - 1 := h1
      _ = (((2 ^ 31 - 1 : Int)) : ℚ) := by norm_num
  have hq : (0 : ℚ) ≤ ((Int.ceil t : Int) : ℚ) := by exact_mod_cast hc0
  unfold castInt32 FMath.RoundFromZero truncate
  rw [if_neg (not_lt.mpr h0), if_pos hq, Int.floor_intCast]
  exact wrapInt32_of_range _ (by omega) hc1

/-- The cooldown text after a tick with an ability set, for a non-negative
remaining time that fits `int`. -/
theorem CooldownText_of_nonneg (icon : UAbilityIcon) (Spec : FGameplayAbilitySpec)
    (t d : ℚ) (h0 : 0 ≤ t) (h1 : t ≤ 2 ^ 31 - 1) :
    ({ icon with AbilitySpec := some Spec }.NativeTick t d).CooldownText =
      if t = 0 then UNumberTextBlock.SetText FText.Empty
      else UNumberTextBlock.SetNumber (Int.ceil t) := by
  have hr := RoundedTime_of_nonneg t h0 h1
  have hz : Int.ceil t = 0 ↔ t = 0 := by
    constructor
    · intro h
      have : t ≤ ((0 : Int) : ℚ) := Int.ceil_le.mp (le_of_eq h)
      exact le_antisymm (by simpa using this) h0
    · intro h; simp [h]
  by_cases ht : t = 0
  · have hc : Int.ceil t = 0 := hz.mpr ht
    rw [hc] at hr
    rw [if_pos ht]
    simp [UAbilityIcon.NativeTick, hr]
  · have : Int.ceil t ≠ 0 := fun h => ht (hz.mp h)
    simp [UAbilityIcon.NativeTick, hr, this, ht]

/-- C16, counterexample. With an ability set and `TimeRemaining = 2 ^ 31`
seconds, the rounded time does not fit `int`: the text is set to the number
`-2147483648`, not to the ceiling `2147483648`. -/
theorem cooldown_text_int_overflow :
    (0 : ℚ) ≤ 2 ^ 31 ∧
      ({ UAbilityIcon.init with AbilitySpec := some ⟨7, 1, 0⟩ }.NativeTick (2 ^ 31)
        10).CooldownText = UNumberTextBlock.SetNumber (-2147483648) ∧
      Int.ceil ((2 : ℚ) ^ 31) = 2147483648 ∧
      ({ UAbilityIcon.init with AbilitySpec := some ⟨7, 1, 0⟩ }.NativeTick (2 ^ 31)
        10).CooldownText ≠ UNumberTextBlock.SetNumber (Int.ceil ((2 : ℚ) ^ 31)) := by
  have hc : Int.ceil ((2 : ℚ) ^ 31) = 2147483648 := by
    have : ((2 : ℚ) ^ 31) = ((2147483648 : Int) : ℚ) := by norm_num
    rw [this, Int.ceil_intCast]
  have hr : castInt32 (FMath.RoundFromZero ((2 : ℚ) ^ 31)) = -2147483648 := by
    have hq : (0 : ℚ) ≤ ((2147483648 : Int) : ℚ) := by norm_num
    have hn : ¬ ((2 : ℚ) ^ 31 < 0) := by norm_num
    unfold castInt32 FMath.RoundFromZero truncate
    rw [if_neg hn, hc, if_pos hq, Int.floor_intCast]
    decide
  have ht : ({ UAbilityIcon.init with AbilitySpec := some ⟨7, 1, 0⟩ }.NativeTick (2 ^ 31)
      10).CooldownText = UNumberTextBlock.SetNumber (-2147483648) := by
    simp [UAbilityIcon.NativeTick, hr]
  refine ⟨by norm_num, ht, hc, ?_⟩
  rw [ht, hc]
  decide

/-- C16, amended. For a tick with an ability set and
`0 ≤ TimeRemaining ≤ 2 ^ 31 - 1`, the cooldown text is cleared when
`TimeRemaining` is 0 and is set to the ceiling of `TimeRemaining` otherwise; a
remaining time in `(0, 1]` is shown as 1. -/
theorem cooldown_text_rounds_up (icon : UAbilityIcon) (Spec : FGameplayAbilitySpec)
    (TimeRemaining CooldownDuration t : ℚ)
    (h0 : 0 ≤ TimeRemaining) (hmax : TimeRemaining ≤ 2 ^ 31 - 1) (ht0 : 0 < t) (ht1 : t ≤ 1) :
    ({ icon with AbilitySpec := some Spec }.NativeTick TimeRemaining
        CooldownDuration).CooldownText =
        (if TimeRemaining = 0 then UNumberTextBlock.SetText FText.Empty
          else UNumberTextBlock.SetNumber (Int.ceil TimeRemaining)) ∧
      ({ icon with AbilitySpec := some Spec }.NativeTick t CooldownDuration).CooldownText =
        UNumberTextBlock.SetNumber 1 := by
  refine ⟨CooldownText_of_nonneg icon Spec _ _ h0 hmax, ?_⟩
  rw [CooldownText_of_nonneg icon Spec t _ (le_of_lt ht0) (le_trans ht1 (by norm_num)),
    if_neg (ne_of_gt ht0)]
  have : Int.ceil t = 1 := by
    rw [Int.ceil_eq_iff]
    constructor
    · simpa using ht0
    · simpa using ht1
  rw [this]

/-- Witness for C16: a third of a second left is shown as 1. -/
theorem cooldown_text_rounds_up_witness :
    (0 : ℚ) ≤ 5 / 2 ∧ (5 : ℚ) / 2 ≤ 2 ^ 31 - 1 ∧ (0 : ℚ) < 1 / 3 ∧ (1 : ℚ) / 3 ≤ 1 ∧
      ({ UAbilityIcon.init with AbilitySpec := some ⟨7, 1, 0⟩ }.NativeTick (1 / 3)
        10).CooldownText = UNumberTextBlock.SetNumber 1 := by
  have h := cooldown_text_rounds_up UAbilityIcon.init ⟨7, 1, 0⟩ (5 / 2) 10 (1 / 3)
    (by norm_num) (by norm_num) (by norm_num) (by norm_num)
  exact ⟨by norm_num, by norm_num, by norm_num, by norm_num, h.2⟩


/-! ## Ability activation: authority and commit -/

/-- C14. For `UBlink::ActivateAbility` and `UFrostBolt::ActivateAbility`: when
`HasAuthorityOrPredictionKey` is false, neither `CommitAbility` nor `EndAbility`
is called, the avatar is as before and no projectile is spawned; when
`CommitAbility` fails, the avatar is as before, no projectile is spawned, and
`EndAbility` is called exactly once, with `bWasCancelled = true`. -/
theorem activation_without_authority_or_commit {α : Type} [LinearOrderedField α] [FloorRing α] (BlinkDistance : α)
    (M : FMath α) (Commit : Bool) (Avatar : Option (AAvatar α))
    (DamageEffectClass : Option Nat) (Character : Option AActor) :
    UBlink.ActivateAbility M BlinkDistance false Commit Avatar =
        { Avatar := Avatar, CommitAbilityCalls := 0, EndAbilityCalls := [] } ∧
      UBlink.ActivateAbility M BlinkDistance true false Avatar =
        { Avatar := Avatar, CommitAbilityCalls := 1, EndAbilityCalls := [(true, true)] } ∧
      UFrostBolt.ActivateAbility DamageEffectClass false Commit Character =
        { Spawned := [], CommitAbilityCalls := 0, EndAbilityCalls := [] } ∧
      UFrostBolt.ActivateAbility DamageEffectClass true false Character =
        { Spawned := [], CommitAbilityCalls := 1, EndAbilityCalls := [(true, true)] } := by
  refine ⟨?_, ?_, ?_, ?_⟩ <;> simp [UBlink.ActivateAbility, UFrostBolt.ActivateAbility]

/-! ## Health change execution -/

/-- C18. `Execute_Implementation` appends exactly one output modifier: its
attribute is Health, its operation is `Override`, and its magnitude is the
captured magnitude of the target's Health when the capture succeeds and 0 when
it fails. -/
theorem health_execution_single_override (Capture : FGameplayEffectAttributeCaptureDefinition → Option ℚ)
    (Out : List FGameplayModifierEvaluatedData) :
    ∃ m : FGameplayModifierEvaluatedData,
      UHealthChangeExecutionCalculation.Execute_Implementation Capture Out = Out ++ [m] ∧
      m.Attribute = UGardumAttributeSet.GetHealthAttribute ∧
      m.ModifierOp = EGameplayModOp.Override ∧
      m.Magnitude =
        (match Capture ⟨UGardumAttributeSet.GetHealthAttribute,
            EGameplayEffectAttributeCaptureSource.Target, false⟩ with
          | some Magnitude => Magnitude
          | none => 0) :=
  ⟨_, rfl, rfl, rfl, rfl⟩

/-! ## HUD icons -/

/-- `GetAbility` returns an icon exactly for the values 0 to 4. -/
theorem UHUDWidget.GetAbility_isSome (i : Nat) :
    (UHUDWidget.GetAbility (i : Int)).isSome = true ↔ i < 5 := by
  have e : UHUDWidget.GetAbility (i : Int) =
      if (i : Int) = 0 then some EHUDIcon.MainAttackIcon
      else if (i : Int) = 1 then some EHUDIcon.Ability1Icon
      else if (i : Int) = 2 then some EHUDIcon.Ability2Icon
      else if (i : Int) = 3 then some EHUDIcon.Ability3Icon
      else if (i : Int) = 4 then some EHUDIcon.UltimateIcon
      else none := rfl
  rw [e]
  constructor
  · intro h
    by_contra hc
    rw [if_neg (by omega), if_neg (by omega), if_neg (by omega), if_neg (by omega),
      if_neg (by omega)] at h
    simp at h
  · intro h
    interval_cases i <;> simp

/-- The loop of `SetAbilitySystem` from index `i` on returns exactly when
every index it uses is below five. -/
theorem UHUDWidget.SetAbilities_isSome (GetIcon : Nat → Option Nat) (ActorInfo : Option Nat)
    (L : List FGameplayAbilitySpec) (i : Nat) (hud : UHUDWidget) :
    (UHUDWidget.SetAbilities GetIcon ActorInfo L i hud).isSome = true ↔
      (L = [] ∨ i + L.length ≤ 5) := by
  induction L generalizing i hud with
  | nil => simp [UHUDWidget.SetAbilities]
  | cons s rest ih =>
    have hg := UHUDWidget.GetAbility_isSome i
    unfold UHUDWidget.SetAbilities
    cases hm : UHUDWidget.GetAbility (i : Int) with
    | none =>
      have : ¬ i < 5 := by
        intro hi
        have := hg.mpr hi
        simp [hm] at this
      simp
      omega
    | some Member =>
      have hi : i < 5 := hg.mp (by simp [hm])
      simp only [ih]
      constructor
      · rintro (h | h)
        · right; simp [h]; omega
        · right; simp; omega
      · rintro (h | h)
        · exact absurd h (by simp)
        · simp at h
          by_cases hr : rest = []
          · exact Or.inl hr
          · right; omega

/-- C19, the code at the failing input. A hero with three default abilities
that is possessed twice has six activatable abilities, and `SetAbilitySystem`
on its ability system does not return: `GetAbility` flows off the end of its
`switch` at index 5. -/
theorem hud_sixth_ability_falls_off_switch :
    ((AHero.PossessedBy 5
        [(AbilityAction.MainAttack, some 10), (AbilityAction.Ability1, some 11),
          (AbilityAction.Ability2, some 12)]
        (AHero.PossessedBy 5
          [(AbilityAction.MainAttack, some 10), (AbilityAction.Ability1, some 11),
            (AbilityAction.Ability2, some 12)]
          (UAbilitySystemComponent.init 100 100))).ActivatableAbilities.length = 6) ∧
      UHUDWidget.SetAbilitySystem (fun _ => none) (UHUDWidget.init 0) 1
        { Systems := fun _ =>
            AHero.PossessedBy 5
              [(AbilityAction.MainAttack, some 10), (AbilityAction.Ability1, some 11),
                (AbilityAction.Ability2, some 12)]
              (AHero.PossessedBy 5
                [(AbilityAction.MainAttack, some 10), (AbilityAction.Ability1, some 11),
                  (AbilityAction.Ability2, some 12)]
                (UAbilitySystemComponent.init 100 100)),
          Bars := fun _ => { AbilitySystem := none, Percent := some 0 } } = none := by
  constructor
  · rfl
  · rfl

/-- C20, the code at the failing input. For the map with the single entry
`Ultimate ↦ 7`, after `PossessedBy` and `SetAbilitySystem` the icon of
`Ultimate` displays no ability, and the icon of `MainAttack` displays the
ability that was granted with the input ID of `Ultimate`. -/
theorem hud_icon_by_index_not_input_id :
    (UHUDWidget.SetAbilitySystem (fun _ => none) (UHUDWidget.init 0) 1
        { Systems := fun _ =>
            AHero.PossessedBy 5 [(AbilityAction.Ultimate, some 7)]
              (UAbilitySystemComponent.init 100 100),
          Bars := fun _ => { AbilitySystem := none, Percent := some 0 } }).map
      (fun r => ((r.1.Icon EHUDIcon.UltimateIcon).AbilitySpec,
        (r.1.Icon EHUDIcon.MainAttackIcon).AbilitySpec)) =
      some (none, some { Ability := 7, Level := 1, InputID := 4 }) := by
  rfl

/-! ## Setup calls of a hero -/

/-- Giving abilities leaves the value change delegates alone. -/
theorem AHero.delegates_foldl_GiveAbility
    (D : List (AbilityAction × Option Nat)) (s : UAbilitySystemComponent) :
    (D.foldl
      (fun a entry =>
        match entry.2 with
        | some Ability =>
          a.GiveAbility { Ability := Ability, Level := 1, InputID := entry.1.toInt }
        | none => a) s).AttributeValueChangeDelegate = s.AttributeValueChangeDelegate := by
  induction D generalizing s with
  | nil => rfl
  | cons e rest ih =>
    rw [List.foldl_cons, ih]
    cases e.2 <;> rfl

/-- Every setup call appends one binding of the hero to the Health delegate. -/
theorem AHero.health_delegate_RunSetupCall (Hero : Nat) (s : UAbilitySystemComponent)
    (c : EHeroSetupCall) :
    (AHero.RunSetupCall Hero s c).AttributeValueChangeDelegate
        UGardumAttributeSet.GetHealthAttribute =
      s.AttributeValueChangeDelegate UGardumAttributeSet.GetHealthAttribute ++
        [EAttributeListener.Hero Hero] := by
  cases c with
  | PossessedBy D =>
    simp only [AHero.RunSetupCall, AHero.PossessedBy]
    rw [AHero.delegates_foldl_GiveAbility]
    simp [AHero.SetupAbilitySystem, UAbilitySystemComponent.AddUObject]
  | OnRep_PlayerState =>
    simp [AHero.RunSetupCall, AHero.OnRep_PlayerState, AHero.SetupAbilitySystem,
      UAbilitySystemComponent.AddUObject]

/-- After a sequence of setup calls the hero is bound to the Health delegate
once per call, on top of the bindings it had. -/
theorem AHero.health_bindings_RunSetupCalls (Hero : Nat) (s : UAbilitySystemComponent)
    (Calls : List EHeroSetupCall) :
    ((AHero.RunSetupCalls Hero s Calls).AttributeValueChangeDelegate
        UGardumAttributeSet.GetHealthAttribute).count (EAttributeListener.Hero Hero) =
      (s.AttributeValueChangeDelegate UGardumAttributeSet.GetHealthAttribute).count
        (EAttributeListener.Hero Hero) + Calls.length := by
  unfold AHero.RunSetupCalls
  induction Calls generalizing s with
  | nil => simp
  | cons c rest ih =>
    rw [List.foldl_cons, ih, AHero.health_delegate_RunSetupCall]
    simp [List.count_append]
    omega

/-- C21, the code at the failing input. A hero on which `PossessedBy` ran twice
is bound twice to the Health delegate of its ability system, and one health
change to 0 in a standalone game then calls `OnHealthChanged` of its player
state twice and adds two deaths. -/
theorem hero_possessed_twice_counts_two_deaths :
    ((AHero.RunSetupCalls 5 (UAbilitySystemComponent.init 100 100)
        [EHeroSetupCall.PossessedBy [], EHeroSetupCall.PossessedBy []]).AttributeValueChangeDelegate
          UGardumAttributeSet.GetHealthAttribute).count (EAttributeListener.Hero 5) = 2 ∧
      (AHero.BroadcastHealthChanged 5
        (AHero.mk 1 ENetMode.NM_Standalone ENetRole.ROLE_Authority 0 true false true 0 0)
        (AHero.RunSetupCalls 5 (UAbilitySystemComponent.init 100 100)
          [EHeroSetupCall.PossessedBy [], EHeroSetupCall.PossessedBy []])
        { NewValue := 0, OldValue := 100, Instigator := none } World.init).Forwarded.length = 2 ∧
      ((AHero.BroadcastHealthChanged 5
        (AHero.mk 1 ENetMode.NM_Standalone ENetRole.ROLE_Authority 0 true false true 0 0)
        (AHero.RunSetupCalls 5 (UAbilitySystemComponent.init 100 100)
          [EHeroSetupCall.PossessedBy [], EHeroSetupCall.PossessedBy []])
        { NewValue := 0, OldValue := 100, Instigator := none } World.init).States 1).Deaths =
        2 := by
  refine ⟨?_, ?_, ?_⟩
  · rfl
  · rfl
  · rfl

/-! ## Ability activation: the paths after a commit -/

/-- On the path where nothing fails after the commit, either ability ends
exactly once, not cancelled. -/
theorem EndAbility_once_when_avatar_fits {α : Type} [LinearOrderedField α] [FloorRing α]
    (M : FMath α) (BlinkDistance : α) (a : AAvatar α) (ha : a.Class.IsPawn = true)
    (EffectClass : Nat) (c : AActor) (hc : c.Class.IsCharacter = true) :
    (UBlink.ActivateAbility M BlinkDistance true true (some a)).EndAbilityCalls =
        [(true, false)] ∧
      (UFrostBolt.ActivateAbility (some EffectClass) true true (some c)).EndAbilityCalls =
        [(true, false)] := by
  simp [UBlink.ActivateAbility, UFrostBolt.ActivateAbility, ha, hc]

/-- C22, the code at the failing inputs. With the authority check passed and
`CommitAbility` succeeded, `UBlink::ActivateAbility` calls `EndAbility` not at
all when the avatar is null or not a pawn, and `UFrostBolt::ActivateAbility`
calls it not at all when the damage effect class is not set or the avatar is not
a character. -/
theorem activation_ensure_paths_skip_end_ability :
    ((UBlink.ActivateAbility (⟨fun _ => 0, fun _ => 1, 3⟩ : FMath ℚ) 500 true true
        none).CommitAbilityCalls = 1 ∧
      (UBlink.ActivateAbility (⟨fun _ => 0, fun _ => 1, 3⟩ : FMath ℚ) 500 true true
        none).EndAbilityCalls = []) ∧
    ((UBlink.ActivateAbility (⟨fun _ => 0, fun _ => 1, 3⟩ : FMath ℚ) 500 true true
        (some { Class := EActorClass.Actor, Location := ⟨0, 0, 0⟩, Rotation := ⟨0, 0, 0⟩,
                BaseAimRotation := ⟨0, 0, 0⟩ })).CommitAbilityCalls = 1 ∧
      (UBlink.ActivateAbility (⟨fun _ => 0, fun _ => 1, 3⟩ : FMath ℚ) 500 true true
        (some { Class := EActorClass.Actor, Location := ⟨0, 0, 0⟩, Rotation := ⟨0, 0, 0⟩,
                BaseAimRotation := ⟨0, 0, 0⟩ })).EndAbilityCalls = []) ∧
    ((UFrostBolt.ActivateAbility none true true
        (some { Id := 7, Class := EActorClass.Hero, PlayerState := 1 })).CommitAbilityCalls = 1 ∧
      (UFrostBolt.ActivateAbility none true true
        (some { Id := 7, Class := EActorClass.Hero, PlayerState := 1 })).EndAbilityCalls = []) ∧
    ((UFrostBolt.ActivateAbility (some 3) true true
        (some { Id := 9, Class := EActorClass.Pawn, PlayerState := 1 })).CommitAbilityCalls = 1 ∧
      (UFrostBolt.ActivateAbility (some 3) true true
        (some { Id := 9, Class := EActorClass.Pawn, PlayerState := 1 })).EndAbilityCalls = []) := by
  refine ⟨⟨?_, ?_⟩, ⟨?_, ?_⟩, ⟨?_, ?_⟩, ⟨?_, ?_⟩⟩ <;>
    simp [UBlink.ActivateAbility, UFrostBolt.ActivateAbility, EActorClass.IsPawn,
      EActorClass.IsCharacter]

/-! ## Attribute bar: events through zero -/

/-- A bar at percent zero that receives an event whose old value is zero ends
with a percent that is not a finite number. -/
theorem UAttributeBar.Percent_after_zero_old (b : UAttributeBar) (NewValue : ℚ)
    (hn : 0 ≤ NewValue) :
    (b.OnAttributeChanged
      { NewValue := NewValue, OldValue := 0, Instigator := none }).Percent = none := by
  cases hp : b.Percent <;>
    simp [UAttributeBar.OnAttributeChanged, UAttributeBar.SetPercent, FloatDiv,
      not_lt.mpr hn, hp]

/-- C23, the code at the failing inputs. A bar connected at 100 of a base of 100
shows percent 1; after the events 100 → 0 → 50 its percent is not a finite
number (the second event divides by the old value 0), and after the events
100 → -5 → 50 its percent is 0, not 50 / 100. -/
theorem health_bar_stuck_after_zero :
    ((UAttributeBar.SetAttribute 0 (some 1) 0 (FHUDWorld.init 100 100)).Bars 0).Percent =
        some 1 ∧
      ((((UAttributeBar.SetAttribute 0 (some 1) 0 (FHUDWorld.init 100 100)).Bars
        0).OnAttributeChanges 100 [0, 50]).Percent = none) ∧
      ((((UAttributeBar.SetAttribute 0 (some 1) 0 (FHUDWorld.init 100 100)).Bars
        0).OnAttributeChanges 100 [-5, 50]).Percent = some 0) ∧
      (some 0 : Option ℚ) ≠ some (50 / 100) := by
  have h0 : ((UAttributeBar.SetAttribute 0 (some 1) 0 (FHUDWorld.init 100 100)).Bars
      0).Percent = some 1 := by
    rw [UAttributeBar.Percent_SetAttribute]
    simp [FHUDWorld.init, UAbilitySystemComponent.init, FloatDiv]
  refine ⟨h0, ?_, ?_, by norm_num⟩
  · simp only [UAttributeBar.OnAttributeChanges]
    exact UAttributeBar.Percent_after_zero_old _ 50 (by norm_num)
  · simp [UAttributeBar.OnAttributeChanges, UAttributeBar.OnAttributeChanged,
      UAttributeBar.SetPercent, FloatDiv]

end Gardum
